import Mathlib

/-!
Verification development for the puzzle-piece vision pipeline
(piece segmentation, candidate filtering/extraction, edge/corner
classification, sensitivity mapping, frame-quality guidance, overlap
estimation).

The TypeScript/JavaScript sources are shallowly embedded: JS numbers are
modelled as `ℚ` (all arithmetic appearing in the modelled code paths is
exact on rationals), integer pixel data as `ℤ`/`ℕ`, optional fields as
`Option`, and the injected OpenCV module (`cv`), which is a function
parameter in the source as well, as a record of abstract geometric
operations.  Code paths whose behaviour depends on actual pixel data
(canvas drawing, Canny, Hough) are abstracted as explicit continuation or
operation parameters; all control flow, filtering, counting and decision
logic is translated directly from the source.
-/

namespace PuzzleVision

/-- Piece classification labels, from `scanModel.ts` (`PieceClass`). -/
inductive PieceClass
  | corner
  | edge
  | nonEdge
  | unknown
deriving DecidableEq, Repr

/-- Aggregated scan counts, from `scanModel.ts` (`ScanCounts`). -/
structure ScanCounts where
  corners : ℕ
  edges : ℕ
  nonEdge : ℕ
  unknown : ℕ
  total : ℕ
deriving DecidableEq, Repr

/-- One loop iteration of `computeCountsFromClasses`: increment `total`,
then the field matching the class. -/
def countsStep (acc : ScanCounts) (c : PieceClass) : ScanCounts :=
  let acc := { acc with total := acc.total + 1 }
  match c with
  | .corner => { acc with corners := acc.corners + 1 }
  | .edge => { acc with edges := acc.edges + 1 }
  | .nonEdge => { acc with nonEdge := acc.nonEdge + 1 }
  | .unknown => { acc with unknown := acc.unknown + 1 }

/-- Embedding of `computeCountsFromClasses` (`scanModel.ts`): a fold of
the counting loop over the input classes, starting from all-zero counts. -/
def computeCountsFromClasses (classes : List PieceClass) : ScanCounts :=
  classes.foldl countsStep ⟨0, 0, 0, 0, 0⟩

theorem countsStep_corners (acc : ScanCounts) (c : PieceClass) :
    (countsStep acc c).corners = acc.corners + (if c = .corner then 1 else 0) := by
  cases c <;> simp [countsStep]

theorem countsStep_edges (acc : ScanCounts) (c : PieceClass) :
    (countsStep acc c).edges = acc.edges + (if c = .edge then 1 else 0) := by
  cases c <;> simp [countsStep]

theorem countsStep_nonEdge (acc : ScanCounts) (c : PieceClass) :
    (countsStep acc c).nonEdge = acc.nonEdge + (if c = .nonEdge then 1 else 0) := by
  cases c <;> simp [countsStep]

theorem countsStep_unknown (acc : ScanCounts) (c : PieceClass) :
    (countsStep acc c).unknown = acc.unknown + (if c = .unknown then 1 else 0) := by
  cases c <;> simp [countsStep]

theorem countsStep_total (acc : ScanCounts) (c : PieceClass) :
    (countsStep acc c).total = acc.total + 1 := by
  cases c <;> simp [countsStep]

theorem countsFold_spec (classes : List PieceClass) (acc : ScanCounts) :
    (classes.foldl countsStep acc).corners
        = acc.corners + classes.count PieceClass.corner
      ∧ (classes.foldl countsStep acc).edges
        = acc.edges + classes.count PieceClass.edge
      ∧ (classes.foldl countsStep acc).nonEdge
        = acc.nonEdge + classes.count PieceClass.nonEdge
      ∧ (classes.foldl countsStep acc).unknown
        = acc.unknown + classes.count PieceClass.unknown
      ∧ (classes.foldl countsStep acc).total = acc.total + classes.length := by
  induction classes generalizing acc with
  | nil => simp
  | cons c cs ih =>
    obtain ⟨h1, h2, h3, h4, h5⟩ := ih (countsStep acc c)
    refine ⟨?_, ?_, ?_, ?_, ?_⟩ <;>
      simp only [List.foldl_cons, h1, h2, h3, h4, h5, countsStep_corners,
        countsStep_edges, countsStep_nonEdge, countsStep_unknown,
        countsStep_total, List.count_cons] <;>
      cases c <;> simp <;> omega

theorem count_four_classes_eq_length (classes : List PieceClass) :
    classes.count PieceClass.corner + classes.count PieceClass.edge
      + classes.count PieceClass.nonEdge + classes.count PieceClass.unknown
      = classes.length := by
  induction classes with
  | nil => rfl
  | cons c cs ih =>
    cases c <;> simp [List.count_cons] <;> omega

/-- C3: for every finite list of piece classes, `computeCountsFromClasses`
returns counts whose `total` equals the sum of the four class fields, and
each field equals the number of occurrences of the corresponding class in
the input. -/
theorem computeCounts_invariant (classes : List PieceClass) :
    (computeCountsFromClasses classes).total
        = (computeCountsFromClasses classes).corners
          + (computeCountsFromClasses classes).edges
          + (computeCountsFromClasses classes).nonEdge
          + (computeCountsFromClasses classes).unknown
      ∧ (computeCountsFromClasses classes).corners
          = classes.count PieceClass.corner
      ∧ (computeCountsFromClasses classes).edges
          = classes.count PieceClass.edge
      ∧ (computeCountsFromClasses classes).nonEdge
          = classes.count PieceClass.nonEdge
      ∧ (computeCountsFromClasses classes).unknown
          = classes.count PieceClass.unknown := by
  obtain ⟨h1, h2, h3, h4, h5⟩ := countsFold_spec classes ⟨0, 0, 0, 0, 0⟩
  unfold computeCountsFromClasses
  refine ⟨?_, by simpa using h1, by simpa using h2, by simpa using h3,
    by simpa using h4⟩
  rw [h1, h2, h3, h4, h5]
  have hsum := count_four_classes_eq_length classes
  simp only [Nat.zero_add]
  omega

/-- Sensitivity levels, from `v1Sensitivity.ts` (`V1Sensitivity`). -/
inductive V1Sensitivity
  | low
  | medium
  | high
deriving DecidableEq, Repr

/-- Parameter bundle, from `v1Sensitivity.ts` (`V1SensitivityParams`). -/
structure V1SensitivityParams where
  minAreaRatio : ℚ
  morphKernelSize : ℚ
  cannyLow : ℚ
  cannyHigh : ℚ
  minSolidity : ℚ
  maxAspectRatio : ℚ
deriving DecidableEq, Repr

/-- Embedding of `v1SensitivityToParams` (`v1Sensitivity.ts`): the
if-chain on the level returning one of three literal records. -/
def v1SensitivityToParams (level : V1Sensitivity) : V1SensitivityParams :=
  if level = .low then
    { cannyLow := 80, cannyHigh := 160, minAreaRatio := 20/10000,
      morphKernelSize := 5, minSolidity := 85/100, maxAspectRatio := 35/10 }
  else if level = .high then
    { cannyLow := 40, cannyHigh := 80, minAreaRatio := 10/10000,
      morphKernelSize := 7, minSolidity := 75/100, maxAspectRatio := 50/10 }
  else
    { cannyLow := 60, cannyHigh := 120, minAreaRatio := 15/10000,
      morphKernelSize := 5, minSolidity := 80/100, maxAspectRatio := 40/10 }

/-- C2: `v1SensitivityToParams` is a pure total function on the closed
three-value enum returning exactly the three specified records, and
calling it twice with the same level yields structurally identical
results. -/
theorem v1SensitivityToParams_spec :
    v1SensitivityToParams .low
        = { cannyLow := 80, cannyHigh := 160, minAreaRatio := 20/10000,
            morphKernelSize := 5, minSolidity := 85/100,
            maxAspectRatio := 35/10 }
      ∧ v1SensitivityToParams .medium
        = { cannyLow := 60, cannyHigh := 120, minAreaRatio := 15/10000,
            morphKernelSize := 5, minSolidity := 80/100,
            maxAspectRatio := 40/10 }
      ∧ v1SensitivityToParams .high
        = { cannyLow := 40, cannyHigh := 80, minAreaRatio := 10/10000,
            morphKernelSize := 7, minSolidity := 75/100,
            maxAspectRatio := 50/10 }
      ∧ ∀ level : V1Sensitivity,
          v1SensitivityToParams level = v1SensitivityToParams level := by
  refine ⟨rfl, rfl, rfl, fun level => rfl⟩

/-- Frame quality metrics, from `quality.ts` (`FrameQuality`).  Optional
metrics are `Option`-valued, mirroring the `typeof x === number` guards. -/
structure FrameQuality where
  width : ℚ
  height : ℚ
  mean : ℚ
  std : ℚ
  lapVar : Option ℚ
  motion : Option ℚ
  fgRatio : Option ℚ
  foregroundRatio : Option ℚ
deriving DecidableEq, Repr

/-- Guidance severity levels, from `quality.ts` (`GuidanceLevel`). -/
inductive GuidanceLevel
  | good
  | warn
  | bad
  | info
deriving DecidableEq, Repr

/-- One guidance item, from `quality.ts` (`QualityGuidance`). -/
structure QualityGuidance where
  level : GuidanceLevel
  message : String
deriving DecidableEq, Repr

/-- Lighting block of `qualityToGuidance`: the if-chain on `q.mean`. -/
def lightingGuidance (mean : ℚ) : List QualityGuidance :=
  if mean < 60 then
    [⟨.bad, "Too dark. Add more light or increase exposure."⟩]
  else if mean < 90 then
    [⟨.warn, "A bit dark. More light will improve edges."⟩]
  else if mean > 210 then
    [⟨.bad, "Too bright / overexposed. Reduce glare and exposure."⟩]
  else if mean > 190 then
    [⟨.warn, "A bit bright. Reduce reflections for cleaner segmentation."⟩]
  else []

/-- Contrast block of `qualityToGuidance`: the if-chain on `q.std`. -/
def contrastGuidance (std : ℚ) : List QualityGuidance :=
  if std < 18 then
    [⟨.bad, "Low contrast. Use a plain, contrasting background (e.g., dark cloth for light pieces)."⟩]
  else if std < 28 then
    [⟨.warn, "Moderate contrast. A more contrasting background may help."⟩]
  else []

/-- Sharpness block of `qualityToGuidance`: guarded on `lapVar` being a
number. -/
def sharpnessGuidance (lapVar : Option ℚ) : List QualityGuidance :=
  match lapVar with
  | none => []
  | some lv =>
    if lv < 35 then
      [⟨.bad, "Very blurry. Stabilize the camera and ensure focus."⟩]
    else if lv < 80 then
      [⟨.warn, "Some blur detected. Try to hold still or increase light."⟩]
    else []

/-- Motion block of `qualityToGuidance`: two independent ifs, so heavy
motion pushes both the warn and the bad item. -/
def motionGuidance (motion : Option ℚ) : List QualityGuidance :=
  match motion with
  | none => []
  | some m =>
    (if m > 18 then
      [⟨.warn, "Motion detected. Lower fps or keep the camera steady."⟩]
    else [])
    ++ (if m > 35 then
      [⟨.bad, "Heavy motion. Live processing may fail—pause movement."⟩]
    else [])

/-- Foreground-ratio block of `qualityToGuidance`: the if-chain on
`q.fgRatio`. -/
def fgGuidance (fgRatio : Option ℚ) : List QualityGuidance :=
  match fgRatio with
  | none => []
  | some f =>
    if f < 1/100 then
      [⟨.bad, "Almost no foreground detected. Ensure pieces are visible and background contrasts."⟩]
    else if f < 3/100 then
      [⟨.warn, "Very little foreground. Move camera closer or improve contrast."⟩]
    else if f > 75/100 then
      [⟨.bad, "Too much foreground detected. Remove clutter and ensure background is visible."⟩]
    else if f > 55/100 then
      [⟨.warn, "Large foreground area. Pieces may overlap or background is noisy."⟩]
    else []

/-- Embedding of `qualityToGuidance` (`quality.ts`): the guidance blocks
in push order, with the good fallback when nothing triggered. -/
def qualityToGuidance (q : Option FrameQuality) : List QualityGuidance :=
  match q with
  | none =>
    [⟨.info, "No quality metrics yet. Capture a frame or enable live processing."⟩]
  | some q =>
    let out := lightingGuidance q.mean ++ contrastGuidance q.std
      ++ sharpnessGuidance q.lapVar ++ motionGuidance q.motion
      ++ fgGuidance q.fgRatio
    if out.length = 0 then
      [⟨.good, "Image quality looks good for segmentation."⟩]
    else out

/-- Overall status values, from `quality.ts` (`FrameQualityStatus`). -/
inductive FrameQualityStatus
  | good
  | warn
  | bad
  | unknown
deriving DecidableEq, Repr

/-- One step of the `reduce` in `frameQualityToStatus`. -/
def worstStatusStep (acc : FrameQualityStatus) (g : QualityGuidance) : FrameQualityStatus :=
  if g.level = .bad then .bad
  else if g.level = .warn ∧ acc ≠ .bad then .warn
  else acc

/-- Embedding of `frameQualityToStatus` (`quality.ts`): `unknown` for a
missing quality record, otherwise the worst level reduced over the
guidance list starting from `good`. -/
def frameQualityToStatus (q : Option FrameQuality) : FrameQualityStatus :=
  match q with
  | none => .unknown
  | some q => (qualityToGuidance (some q)).foldl worstStatusStep .good

theorem worstFold_spec (gs : List QualityGuidance) (acc : FrameQualityStatus) :
    gs.foldl worstStatusStep acc
      = (if acc = .bad ∨ (∃ g ∈ gs, g.level = .bad) then .bad
         else if acc = .warn ∨ (∃ g ∈ gs, g.level = .warn) then .warn
         else acc) := by
  induction gs generalizing acc with
  | nil => by_cases h1 : acc = .bad <;> by_cases h2 : acc = .warn <;> simp [h1, h2]
  | cons g gs ih =>
    simp only [List.foldl_cons, ih]
    rcases hl : g.level <;> rcases hacc : acc <;>
      simp [worstStatusStep, hl, or_assoc]

theorem qualityToGuidance_some (q : FrameQuality) :
    qualityToGuidance (some q)
      = (if (lightingGuidance q.mean ++ contrastGuidance q.std
            ++ sharpnessGuidance q.lapVar ++ motionGuidance q.motion
            ++ fgGuidance q.fgRatio).length = 0 then
          [⟨.good, "Image quality looks good for segmentation."⟩]
        else
          lightingGuidance q.mean ++ contrastGuidance q.std
            ++ sharpnessGuidance q.lapVar ++ motionGuidance q.motion
            ++ fgGuidance q.fgRatio) := rfl

theorem lighting_nominal {m : ℚ} (h1 : 90 ≤ m) (h2 : m ≤ 190) :
    lightingGuidance m = [] := by
  unfold lightingGuidance
  rw [if_neg (by linarith), if_neg (by linarith), if_neg (by linarith),
    if_neg (by linarith)]

theorem contrast_nominal {s : ℚ} (h : 28 ≤ s) : contrastGuidance s = [] := by
  unfold contrastGuidance
  rw [if_neg (by linarith), if_neg (by linarith)]

theorem sharpness_nominal {lv : Option ℚ}
    (h : lv = none ∨ ∃ v, lv = some v ∧ 80 ≤ v) : sharpnessGuidance lv = [] := by
  rcases h with h | ⟨v, hv, hge⟩
  · rw [h]; rfl
  · rw [hv]
    show (if v < 35 then _ else if v < 80 then _ else []) = []
    rw [if_neg (by linarith), if_neg (by linarith)]

theorem motion_nominal {mo : Option ℚ}
    (h : mo = none ∨ ∃ m, mo = some m ∧ m ≤ 18) : motionGuidance mo = [] := by
  rcases h with h | ⟨m, hm, hle⟩
  · rw [h]; rfl
  · rw [hm]
    show ((if m > 18 then _ else []) ++ if m > 35 then _ else []) = []
    rw [if_neg (by linarith), if_neg (by linarith)]
    rfl

theorem fg_nominal {fr : Option ℚ}
    (h : fr = none ∨ ∃ f, fr = some f ∧ 3/100 ≤ f ∧ f ≤ 55/100) :
    fgGuidance fr = [] := by
  rcases h with h | ⟨f, hf, hge, hle⟩
  · rw [h]; rfl
  · rw [hf]
    show (if f < 1/100 then _
      else if f < 3/100 then _
      else if f > 75/100 then _
      else if f > 55/100 then _ else []) = []
    rw [if_neg (by linarith), if_neg (by linarith), if_neg (by linarith),
      if_neg (by linarith)]

/-- C9: with the other metrics in their no-guidance nominal ranges, a
Laplacian variance of 10 makes the overall status `bad`, a luma standard
deviation of 22 makes it `warn`, a motion score of 20 makes it `warn`;
and for every quality record the overall status is the highest-severity
level among the triggered guidance items (`bad` if any `bad` item
triggered, else `warn` if any `warn` item triggered, else `good`). -/
theorem frameQualityToStatus_scenarios :
    (∀ q : FrameQuality,
        90 ≤ q.mean → q.mean ≤ 190 → 28 ≤ q.std →
        (q.motion = none ∨ ∃ m, q.motion = some m ∧ m ≤ 18) →
        (q.fgRatio = none ∨ ∃ f, q.fgRatio = some f ∧ 3/100 ≤ f ∧ f ≤ 55/100) →
        q.lapVar = some 10 →
        frameQualityToStatus (some q) = .bad)
      ∧ (∀ q : FrameQuality,
          90 ≤ q.mean → q.mean ≤ 190 →
          (q.lapVar = none ∨ ∃ v, q.lapVar = some v ∧ 80 ≤ v) →
          (q.motion = none ∨ ∃ m, q.motion = some m ∧ m ≤ 18) →
          (q.fgRatio = none ∨ ∃ f, q.fgRatio = some f ∧ 3/100 ≤ f ∧ f ≤ 55/100) →
          q.std = 22 →
          frameQualityToStatus (some q) = .warn)
      ∧ (∀ q : FrameQuality,
          90 ≤ q.mean → q.mean ≤ 190 → 28 ≤ q.std →
          (q.lapVar = none ∨ ∃ v, q.lapVar = some v ∧ 80 ≤ v) →
          (q.fgRatio = none ∨ ∃ f, q.fgRatio = some f ∧ 3/100 ≤ f ∧ f ≤ 55/100) →
          q.motion = some 20 →
          frameQualityToStatus (some q) = .warn)
      ∧ (∀ q : FrameQuality,
          frameQualityToStatus (some q)
            = (if ∃ g ∈ qualityToGuidance (some q), g.level = .bad then .bad
               else if ∃ g ∈ qualityToGuidance (some q), g.level = .warn then .warn
               else .good)) := by
  have hstatus : ∀ q : FrameQuality,
      frameQualityToStatus (some q)
        = (if ∃ g ∈ qualityToGuidance (some q), g.level = .bad then .bad
           else if ∃ g ∈ qualityToGuidance (some q), g.level = .warn then .warn
           else .good) := by
    intro q
    show (qualityToGuidance (some q)).foldl worstStatusStep .good = _
    rw [worstFold_spec]
    simp
  refine ⟨?_, ?_, ?_, hstatus⟩
  · intro q h1 h2 h3 h4 h5 h6
    have hout : qualityToGuidance (some q)
        = [⟨.bad, "Very blurry. Stabilize the camera and ensure focus."⟩] := by
      rw [qualityToGuidance_some, lighting_nominal h1 h2, contrast_nominal h3,
        motion_nominal h4, fg_nominal h5, h6]
      norm_num [sharpnessGuidance]
    rw [hstatus, hout]
    simp
  · intro q h1 h2 h3 h4 h5 h6
    have hout : qualityToGuidance (some q)
        = [⟨.warn, "Moderate contrast. A more contrasting background may help."⟩] := by
      rw [qualityToGuidance_some, lighting_nominal h1 h2, sharpness_nominal h3,
        motion_nominal h4, fg_nominal h5, h6]
      norm_num [contrastGuidance]
    rw [hstatus, hout]
    simp
  · intro q h1 h2 h3 h4 h5 h6
    have hout : qualityToGuidance (some q)
        = [⟨.warn, "Motion detected. Lower fps or keep the camera steady."⟩] := by
      rw [qualityToGuidance_some, lighting_nominal h1 h2, contrast_nominal h3,
        sharpness_nominal h4, fg_nominal h5, h6]
      norm_num [motionGuidance]
    rw [hstatus, hout]
    simp

/-- Witness for C9: a concrete quality record in the nominal ranges with
Laplacian variance 10 is rated `bad`, and the analogous records for low
contrast and for motion are rated `warn`. -/
theorem frameQualityToStatus_scenarios_witness :
    frameQualityToStatus (some ⟨640, 480, 120, 40, some 10, none, none, none⟩)
        = .bad
      ∧ frameQualityToStatus (some ⟨640, 480, 120, 22, some 100, none, none, none⟩)
        = .warn
      ∧ frameQualityToStatus (some ⟨640, 480, 120, 40, some 100, some 20, none, none⟩)
        = .warn := by
  refine ⟨?_, ?_, ?_⟩
  · exact frameQualityToStatus_scenarios.1 ⟨640, 480, 120, 40, some 10, none, none, none⟩
      (by norm_num) (by norm_num) (by norm_num) (Or.inl rfl) (Or.inl rfl) rfl
  · exact frameQualityToStatus_scenarios.2.1 ⟨640, 480, 120, 22, some 100, none, none, none⟩
      (by norm_num) (by norm_num) (Or.inr ⟨100, rfl, by norm_num⟩)
      (Or.inl rfl) (Or.inl rfl) rfl
  · exact frameQualityToStatus_scenarios.2.2.1 ⟨640, 480, 120, 40, some 100, some 20, none, none⟩
      (by norm_num) (by norm_num) (by norm_num)
      (Or.inr ⟨100, rfl, by norm_num⟩) (Or.inl rfl) rfl

/-- Axis-aligned box with rational coordinates. -/
structure BBoxQ where
  x : ℚ
  y : ℚ
  width : ℚ
  height : ℚ
deriving DecidableEq, Repr

/-- A contour point with rational coordinates. -/
structure PointQ where
  x : ℚ
  y : ℚ
deriving DecidableEq, Repr

/-- Extracted piece record, from `extractPieces.ts` (`ExtractedPiece`),
including the optional classification fields attached by the classifier
and the optional processed-coordinate contour used by the worker path. -/
structure ExtractedPiece where
  id : ℕ
  bboxSource : BBoxQ
  bboxProcessed : BBoxQ
  areaPxProcessed : ℚ
  solidity : ℚ
  aspectRatio : ℚ
  previewUrl : String
  contourSource : List PointQ
  contourProcessed : Option (List PointQ)
  classification : Option PieceClass
  classificationConfidence : Option ℚ
  classificationDebug : Option String
deriving DecidableEq, Repr

/-- Result record of the classifier: updated pieces plus a debug string. -/
structure ClassifyResult where
  pieces : List ExtractedPiece
  debug : String
deriving DecidableEq, Repr

/-- Length-ratio confidence `sideConf` from the v1 `classifyEdgeCornerMvp`
(`classifyPieces.ts`): 0 at or below zero ratio, otherwise the clamped
linear ramp from the minimum length ratio up to 1. -/
def sideConf (minLenRatio ratio : ℚ) : ℚ :=
  if ratio ≤ 0 then 0
  else max 0 (min 1 ((ratio - minLenRatio) / max (1/1000000) (1 - minLenRatio)))

/-- Decision record produced per piece by the classifier. -/
structure ClassDecision where
  classification : PieceClass
  confidence : ℚ
deriving DecidableEq, Repr

/-- Decision tail of the v1 `classifyEdgeCornerMvp` (`classifyPieces.ts`
lines converting straight-edge evidence to a classification): inputs are
the per-piece line-scan evidence (`hasHorizontal`, `hasVertical`, best
accepted segment lengths) and the clamped ROI dimensions; the numeric
segment lengths stand for the `Math.hypot` values computed in the scan. -/
def classifyDecisionMvp (minLenRatio uncertainMarginRatio : ℚ)
    (hasHorizontal hasVertical : Bool) (bestHLen bestVLen w h : ℚ) :
    ClassDecision :=
  let maxDim := max w h
  let hRatio := if maxDim > 0 then bestHLen / maxDim else 0
  let vRatio := if maxDim > 0 then bestVLen / maxDim else 0
  let bestRatio := max hRatio vRatio
  let hConf := if hasHorizontal then sideConf minLenRatio hRatio else 0
  let vConf := if hasVertical then sideConf minLenRatio vRatio else 0
  let d : ClassDecision :=
    if hasHorizontal && hasVertical then ⟨.corner, min hConf vConf⟩
    else if hasHorizontal || hasVertical then ⟨.edge, max hConf vConf⟩
    else ⟨.nonEdge, 7/10⟩
  if (d.classification = .corner ∨ d.classification = .edge)
      ∧ (bestRatio > 0 ∧ bestRatio < minLenRatio * (1 + uncertainMarginRatio)) then
    ⟨.unknown, max (5/100) (min (25/100) d.confidence)⟩
  else d

/-- C1: with the default thresholds (minimum line length ratio 0.35,
uncertain margin 0.10), a piece whose best straight-segment length ratio
is positive but below 0.35 × 1.10, and which the decision tree would have
classified corner or edge (some straight-side evidence found), is
classified `unknown` with confidence in [0.05, 0.25]. -/
theorem classifyMvp_conservative_margin
    (hasHorizontal hasVertical : Bool) (bestHLen bestVLen w h : ℚ)
    (hw : 1 ≤ w) (hh : 1 ≤ h)
    (hpos : 0 < max (bestHLen / max w h) (bestVLen / max w h))
    (hlt : max (bestHLen / max w h) (bestVLen / max w h)
      < (35/100) * (1 + 10/100))
    (hev : hasHorizontal = true ∨ hasVertical = true) :
    (classifyDecisionMvp (35/100) (10/100) hasHorizontal hasVertical
        bestHLen bestVLen w h).classification = .unknown
      ∧ 5/100 ≤ (classifyDecisionMvp (35/100) (10/100) hasHorizontal
          hasVertical bestHLen bestVLen w h).confidence
      ∧ (classifyDecisionMvp (35/100) (10/100) hasHorizontal hasVertical
          bestHLen bestVLen w h).confidence ≤ 25/100 := by
  have hmax : (0:ℚ) < max w h := lt_of_lt_of_le one_pos (le_trans hw (le_max_left w h))
  have hbounds : ∀ c : ℚ, 5/100 ≤ max (5/100) (min (25/100) c)
      ∧ max (5/100) (min (25/100) c) ≤ 25/100 := by
    intro c
    exact ⟨le_max_left _ _, max_le (by norm_num) (min_le_left _ _)⟩
  unfold classifyDecisionMvp
  simp only [if_pos hmax]
  rcases hev with hev | hev <;> rw [hev] <;> cases hasHorizontal <;>
    cases hasVertical <;>
    simp only [Bool.and_self, Bool.and_true, Bool.true_and, Bool.and_false,
      Bool.false_and, Bool.or_self, Bool.or_true, Bool.true_or,
      Bool.false_or, if_true, if_false, Bool.true_eq_false] <;>
    first
    | exact absurd rfl (by simp)
    | · rw [if_pos ⟨by simp, hpos, hlt⟩]
        exact ⟨rfl, (hbounds _).1, (hbounds _).2⟩

/-- Witness for C1: a 100×100 ROI with one horizontal straight side of
length 36 (ratio 0.36, inside the uncertain margin band) is downgraded to
`unknown` with confidence between 0.05 and 0.25. -/
theorem classifyMvp_conservative_margin_witness :
    (classifyDecisionMvp (35/100) (10/100) true false 36 0 100 100).classification
        = .unknown
      ∧ 5/100 ≤ (classifyDecisionMvp (35/100) (10/100) true false 36 0
          100 100).confidence
      ∧ (classifyDecisionMvp (35/100) (10/100) true false 36 0
          100 100).confidence ≤ 25/100 :=
  classifyMvp_conservative_margin true false 36 0 100 100 (by norm_num)
    (by norm_num) (by norm_num) (by norm_num) (Or.inl rfl)

/-- Embedding of the missing-2D-context guard of the v1
`classifyEdgeCornerMvp` (`classifyPieces.ts`): `ctxOk` abstracts whether
`processedFrameCanvas.getContext` returned a context; `rest` abstracts
the OpenCV per-piece path taken when a context exists. -/
def classifyEdgeCornerMvp (ctxOk : Bool) (pieces : List ExtractedPiece)
    (rest : List ExtractedPiece → ClassifyResult) : ClassifyResult :=
  if !ctxOk then
    ⟨pieces.map fun p =>
      { p with classification := some PieceClass.unknown,
               classificationConfidence := some 0,
               classificationDebug := some "No 2D context." },
     "No 2D context."⟩
  else rest pieces

/-- A concrete piece used in counterexamples. -/
def samplePiece : ExtractedPiece :=
  ⟨1, ⟨0, 0, 10, 10⟩, ⟨0, 0, 10, 10⟩, 100, 1, 1, "", [], none, none, none, none⟩

/-- A trivial continuation for the context-available path. -/
def restId : List ExtractedPiece → ClassifyResult := fun ps => ⟨ps, ""⟩

/-- Counterexample for C10: when the 2D context is missing, the returned
piece differs from the input in `classificationDebug` as well (it is set
to the string No 2D context.), so the piece is not unchanged except for
classification and confidence alone. -/
theorem classifyMvp_noCtx_not_only_two_fields :
    (classifyEdgeCornerMvp false [samplePiece] restId).pieces
      ≠ [{ samplePiece with
            classification := some PieceClass.unknown,
            classificationConfidence := some 0 }] := by
  simp [classifyEdgeCornerMvp, samplePiece]

/-- C10 (amended): when the processed-frame canvas yields no 2D context,
the v1 classifier neither throws nor drops pieces: it returns the input
pieces in order, each unchanged except that `classification` is set to
`unknown`, `classificationConfidence` to 0 and `classificationDebug` to
the string No 2D context. -/
theorem classifyMvp_noCtx_pieces (pieces : List ExtractedPiece)
    (rest : List ExtractedPiece → ClassifyResult) :
    List.Forall₂ (fun p p2 =>
        p2.id = p.id ∧ p2.bboxSource = p.bboxSource
          ∧ p2.bboxProcessed = p.bboxProcessed
          ∧ p2.areaPxProcessed = p.areaPxProcessed
          ∧ p2.solidity = p.solidity ∧ p2.aspectRatio = p.aspectRatio
          ∧ p2.previewUrl = p.previewUrl
          ∧ p2.contourSource = p.contourSource
          ∧ p2.contourProcessed = p.contourProcessed
          ∧ p2.classification = some PieceClass.unknown
          ∧ p2.classificationConfidence = some 0
          ∧ p2.classificationDebug = some "No 2D context.")
      pieces (classifyEdgeCornerMvp false pieces rest).pieces := by
  show List.Forall₂ _ pieces (pieces.map _)
  rw [List.forall₂_map_right_iff]
  exact List.forall₂_same.mpr fun p _ =>
    ⟨rfl, rfl, rfl, rfl, rfl, rfl, rfl, rfl, rfl, rfl, rfl, rfl⟩

/-- Debug metadata of a segmentation result, from `segmentPieces.ts`
(`SegmentPiecesResult.debug`). -/
structure SegDebug where
  sourceWidth : ℕ
  sourceHeight : ℕ
  processedWidth : ℕ
  processedHeight : ℕ
  scaleToSource : ℚ
  inverted : Bool
  threshold : String
  piecesKept : ℕ
  contoursFound : ℕ
deriving DecidableEq, Repr

/-- Segmentation candidate, from `segmentPieces.ts` (`PieceCandidate`). -/
structure PieceCandidate where
  id : ℕ
  areaPx : ℚ
  bbox : BBoxQ
  contour : List PointQ
deriving DecidableEq, Repr

/-- Segmentation result, from `segmentPieces.ts` (`SegmentPiecesResult`). -/
structure SegmentPiecesResult where
  pieces : List PieceCandidate
  debug : SegDebug
deriving DecidableEq, Repr

/-- Embedding of the input-validation prefix of `segmentPiecesFromFrame`
(`segmentPieces.ts`): the zero-dimension early return, the scale and
processed-dimension computation, and the missing-2D-context early return.
`ctxOk` abstracts whether `inputCanvas.getContext` returned a context and
`rest`, applied to the processed dimensions and scale, abstracts the
OpenCV pipeline run when both guards pass. -/
def segmentPiecesFromFrame (sourceWidth sourceHeight : ℕ) (ctxOk : Bool)
    (targetWidth : ℕ) (rest : ℕ → ℕ → ℚ → SegmentPiecesResult) :
    SegmentPiecesResult :=
  if sourceWidth = 0 ∨ sourceHeight = 0 then
    ⟨[], ⟨sourceWidth, sourceHeight, 0, 0, 1, false, "otsu", 0, 0⟩⟩
  else
    let scale : ℚ :=
      if targetWidth < sourceWidth then (targetWidth : ℚ) / sourceWidth else 1
    let processedWidth : ℕ := max 1 (round ((sourceWidth : ℚ) * scale)).toNat
    let processedHeight : ℕ := max 1 (round ((sourceHeight : ℚ) * scale)).toNat
    if ctxOk = false then
      ⟨[], ⟨sourceWidth, sourceHeight, processedWidth, processedHeight,
        1 / scale, false, "otsu", 0, 0⟩⟩
    else rest processedWidth processedHeight scale

/-- A trivial continuation for the segmentation pipeline tail. -/
def restSegDummy : ℕ → ℕ → ℚ → SegmentPiecesResult :=
  fun _ _ _ => ⟨[], ⟨0, 0, 0, 0, 1, false, "otsu", 0, 0⟩⟩

/-- Counterexample for C7: a 100×50 frame whose drawing surface yields no
2D context produces a result whose `processedWidth` is 100, not 0, so the
debug metadata is not fully zeroed on the missing-context path. -/
theorem segment_noCtx_not_zeroed :
    (segmentPiecesFromFrame 100 50 false 640 restSegDummy).debug.processedWidth
      = 100 := by
  show (max 1 (round ((100 : ℚ) * if (640 : ℕ) < 100 then (640 : ℚ) / 100 else 1)).toNat) = 100
  norm_num
  rfl

/-- C7 (amended): for a frame with zero source width or height,
`segmentPiecesFromFrame` returns an empty candidate list and fully zeroed
debug metadata (processed dimensions 0, nothing kept or found, not
inverted); for a nonzero-dimension frame whose drawing surface yields no
2D context it also returns an empty list with `piecesKept`,
`contoursFound` zero and `inverted` false, but with the computed processed
dimensions (each at least 1) rather than 0.  Both paths return normally
instead of throwing. -/
theorem segment_early_return_semantics (sourceWidth sourceHeight targetWidth : ℕ)
    (ctxOk : Bool) (rest : ℕ → ℕ → ℚ → SegmentPiecesResult) :
    (sourceWidth = 0 ∨ sourceHeight = 0 →
      segmentPiecesFromFrame sourceWidth sourceHeight ctxOk targetWidth rest
        = ⟨[], ⟨sourceWidth, sourceHeight, 0, 0, 1, false, "otsu", 0, 0⟩⟩)
      ∧ (sourceWidth ≠ 0 → sourceHeight ≠ 0 →
        (segmentPiecesFromFrame sourceWidth sourceHeight false targetWidth
            rest).pieces = []
          ∧ (segmentPiecesFromFrame sourceWidth sourceHeight false targetWidth
              rest).debug.piecesKept = 0
          ∧ (segmentPiecesFromFrame sourceWidth sourceHeight false targetWidth
              rest).debug.contoursFound = 0
          ∧ (segmentPiecesFromFrame sourceWidth sourceHeight false targetWidth
              rest).debug.inverted = false
          ∧ 1 ≤ (segmentPiecesFromFrame sourceWidth sourceHeight false
              targetWidth rest).debug.processedWidth
          ∧ 1 ≤ (segmentPiecesFromFrame sourceWidth sourceHeight false
              targetWidth rest).debug.processedHeight) := by
  constructor
  · intro hz
    unfold segmentPiecesFromFrame
    rw [if_pos hz]
  · intro hw hh
    unfold segmentPiecesFromFrame
    rw [if_neg (by simp [hw, hh])]
    refine ⟨rfl, rfl, rfl, rfl, le_max_left _ _, le_max_left _ _⟩

/-- Witness for C7: a 0×5 frame yields the fully zeroed result, and a
100×50 frame with no 2D context yields an empty result with nonzero
processed dimensions. -/
theorem segment_early_return_semantics_witness :
    (segmentPiecesFromFrame 0 5 true 640 restSegDummy
        = ⟨[], ⟨0, 5, 0, 0, 1, false, "otsu", 0, 0⟩⟩)
      ∧ ((segmentPiecesFromFrame 100 50 false 640 restSegDummy).pieces = []
        ∧ (segmentPiecesFromFrame 100 50 false 640 restSegDummy).debug.piecesKept = 0
        ∧ (segmentPiecesFromFrame 100 50 false 640 restSegDummy).debug.contoursFound = 0
        ∧ (segmentPiecesFromFrame 100 50 false 640 restSegDummy).debug.inverted = false
        ∧ 1 ≤ (segmentPiecesFromFrame 100 50 false 640 restSegDummy).debug.processedWidth
        ∧ 1 ≤ (segmentPiecesFromFrame 100 50 false 640 restSegDummy).debug.processedHeight) :=
  ⟨(segment_early_return_semantics 0 5 640 true restSegDummy).1 (Or.inl rfl),
    (segment_early_return_semantics 100 50 640 false restSegDummy).2
      (by norm_num) (by norm_num)⟩

/-- Overlap estimate record, from `overlap.ts` (`OverlapEstimate`). -/
structure OverlapEstimate where
  overlappingPairs : ℕ
  maxOverlapFraction : ℚ
  comparisons : ℕ
deriving DecidableEq, Repr

/-- Box area, from `overlap.ts` (`area`): negative extents clamp to 0. -/
def boxArea (b : BBoxQ) : ℚ := max 0 b.width * max 0 b.height

/-- Intersection area, from `overlap.ts` (`intersectionArea`). -/
def intersectionArea (a b : BBoxQ) : ℚ :=
  let x1 := max a.x b.x
  let y1 := max a.y b.y
  let x2 := min (a.x + a.width) (b.x + b.width)
  let y2 := min (a.y + a.height) (b.y + b.height)
  if x2 - x1 ≤ 0 ∨ y2 - y1 ≤ 0 then 0 else (x2 - x1) * (y2 - y1)

/-- Inner loop of `estimateOverlap` over the boxes after the current one:
`Except.error` models the early `return` when the comparison cap is hit,
which aborts the whole function. -/
def overlapInner (maxComparisons : ℕ) (thr : ℚ) (a : BBoxQ) (aArea : ℚ) :
    List BBoxQ → OverlapEstimate → Except OverlapEstimate OverlapEstimate
  | [], st => .ok st
  | b :: rest, st =>
    if maxComparisons ≤ st.comparisons then .error st
    else
      let st1 : OverlapEstimate := { st with comparisons := st.comparisons + 1 }
      if boxArea b ≤ 0 then overlapInner maxComparisons thr a aArea rest st1
      else if intersectionArea a b ≤ 0 then
        overlapInner maxComparisons thr a aArea rest st1
      else
        let frac := intersectionArea a b / min aArea (boxArea b)
        let st2 : OverlapEstimate :=
          { st1 with maxOverlapFraction :=
              if st1.maxOverlapFraction < frac then frac
              else st1.maxOverlapFraction }
        let st3 : OverlapEstimate :=
          if thr ≤ frac then
            { st2 with overlappingPairs := st2.overlappingPairs + 1 }
          else st2
        overlapInner maxComparisons thr a aArea rest st3

/-- Outer loop of `estimateOverlap`: boxes with nonpositive area skip the
inner loop entirely; an early return from the inner loop ends the whole
computation. -/
def overlapOuter (maxComparisons : ℕ) (thr : ℚ) :
    List BBoxQ → OverlapEstimate → OverlapEstimate
  | [], st => st
  | a :: rest, st =>
    if boxArea a ≤ 0 then overlapOuter maxComparisons thr rest st
    else
      match overlapInner maxComparisons thr a (boxArea a) rest st with
      | .error st2 => st2
      | .ok st2 => overlapOuter maxComparisons thr rest st2

/-- Embedding of `estimateOverlap` (`overlap.ts`) with its defaults
(`maxComparisons` 15000, `overlapFractionThreshold` 0.18). -/
def estimateOverlap (boxes : List BBoxQ) : OverlapEstimate :=
  overlapOuter 15000 (18/100) boxes ⟨0, 0, 0⟩

/-- A degenerate zero-area box. -/
def boxZ : BBoxQ := ⟨0, 0, 0, 0⟩

/-- A 10×10 box at the origin. -/
def boxA : BBoxQ := ⟨0, 0, 10, 10⟩

/-- Counterexample for C8: swapping a zero-area box past a positive-area
box changes the returned record, because a zero-area box in outer-loop
position skips the inner loop without counting a comparison while in
inner-loop position the comparison is counted: the two orders give
`comparisons` 1 and 0. -/
theorem estimateOverlap_not_perm_invariant :
    [boxA, boxZ].Perm [boxZ, boxA]
      ∧ estimateOverlap [boxA, boxZ] ≠ estimateOverlap [boxZ, boxA] := by
  constructor
  · exact List.Perm.swap boxZ boxA []
  · have hz : boxArea boxZ ≤ 0 := by norm_num [boxArea, boxZ]
    have ha : ¬ boxArea boxA ≤ 0 := by norm_num [boxArea, boxA]
    have h1 : estimateOverlap [boxA, boxZ] = ⟨0, 0, 1⟩ := by
      unfold estimateOverlap overlapOuter overlapInner
      rw [if_neg ha]
      simp only [Nat.le_zero, OfNat.ofNat_ne_zero, if_false, if_pos hz]
      unfold overlapInner overlapOuter
      rw [if_pos hz]
      rfl
    have h2 : estimateOverlap [boxZ, boxA] = ⟨0, 0, 0⟩ := by
      unfold estimateOverlap overlapOuter
      rw [if_pos hz]
      unfold overlapOuter
      rw [if_neg ha]
      unfold overlapInner overlapOuter
      rfl
    rw [h1, h2]
    intro h
    have := congrArg OverlapEstimate.comparisons h
    simp at this

/-- All ordered index pairs i < j of a list, as element pairs, in the
visit order of the double loop of `estimateOverlap`. -/
def listPairs {α : Type} : List α → List (α × α)
  | [] => []
  | x :: xs => (xs.map fun y => (x, y)) ++ listPairs xs

theorem listPairs_mem {α : Type} {l : List α} {pr : α × α}
    (h : pr ∈ listPairs l) : pr.1 ∈ l ∧ pr.2 ∈ l := by
  induction l with
  | nil => simp [listPairs] at h
  | cons x xs ih =>
    simp only [listPairs, List.mem_append, List.mem_map] at h
    rcases h with ⟨y, hy, rfl⟩ | h
    · exact ⟨List.mem_cons_self x xs, List.mem_cons_of_mem x hy⟩
    · exact ⟨List.mem_cons_of_mem x (ih h).1, List.mem_cons_of_mem x (ih h).2⟩

theorem listPairs_length {α : Type} (l : List α) :
    2 * (listPairs l).length = l.length * (l.length - 1) := by
  induction l with
  | nil => rfl
  | cons x xs ih =>
    simp only [listPairs, List.length_append, List.length_map,
      List.length_cons, Nat.add_sub_cancel]
    cases hn : xs.length with
    | zero =>
      rw [hn] at ih
      omega
    | succ k =>
      rw [hn, Nat.add_sub_cancel] at ih
      have h2 : (k + 1 + 1) * (k + 1) = (k + 1) * k + 2 * (k + 1) := by ring
      rw [h2]
      omega

theorem listPairs_map_sym_perm {α β : Type} (f : α → α → β)
    (hf : ∀ a b, f a b = f b a) {l l' : List α} (h : l.Perm l') :
    ((listPairs l).map fun pr => f pr.1 pr.2).Perm
      ((listPairs l').map fun pr => f pr.1 pr.2) := by
  induction h with
  | nil => exact List.Perm.refl _
  | cons x h ih =>
    simp only [listPairs, List.map_append, List.map_map]
    exact ((h.map _).append ih)
  | swap x y l =>
    simp only [listPairs, List.map_append, List.map_map, List.map_cons,
      Function.comp_def]
    rw [hf y x]
    have hmid :
        ((l.map fun b => f y b) ++ ((l.map fun b => f x b)
            ++ (listPairs l).map fun pr => f pr.1 pr.2)).Perm
          ((l.map fun b => f x b) ++ ((l.map fun b => f y b)
            ++ (listPairs l).map fun pr => f pr.1 pr.2)) := by
      rw [← List.append_assoc, ← List.append_assoc]
      exact List.perm_append_comm.append_right _
    exact hmid.cons _
  | trans _ _ ih1 ih2 => exact ih1.trans ih2

/-- Whether a pair of boxes counts as overlapping in `estimateOverlap`:
positive intersection whose fraction of the smaller area meets the
threshold. -/
def hitPred (thr : ℚ) (pr : BBoxQ × BBoxQ) : Bool :=
  decide (0 < intersectionArea pr.1 pr.2)
    && decide (thr ≤ intersectionArea pr.1 pr.2
      / min (boxArea pr.1) (boxArea pr.2))

/-- The max-overlap-fraction update of `estimateOverlap` for one pair. -/
def mofStep (acc : ℚ) (pr : BBoxQ × BBoxQ) : ℚ :=
  if intersectionArea pr.1 pr.2 ≤ 0 then acc
  else if acc < intersectionArea pr.1 pr.2
      / min (boxArea pr.1) (boxArea pr.2) then
    intersectionArea pr.1 pr.2 / min (boxArea pr.1) (boxArea pr.2)
  else acc

/-- The overlap fraction of a pair, clipped to 0 for empty intersections. -/
def clipFrac (pr : BBoxQ × BBoxQ) : ℚ :=
  if intersectionArea pr.1 pr.2 ≤ 0 then 0
  else intersectionArea pr.1 pr.2 / min (boxArea pr.1) (boxArea pr.2)

theorem intersectionArea_comm (a b : BBoxQ) :
    intersectionArea a b = intersectionArea b a := by
  unfold intersectionArea
  rw [max_comm a.x b.x, max_comm a.y b.y, min_comm (a.x + a.width),
    min_comm (a.y + a.height)]

theorem hitPred_swap (thr : ℚ) (a b : BBoxQ) :
    hitPred thr (a, b) = hitPred thr (b, a) := by
  unfold hitPred
  rw [intersectionArea_comm, min_comm]

theorem clipFrac_swap (a b : BBoxQ) : clipFrac (a, b) = clipFrac (b, a) := by
  unfold clipFrac
  rw [intersectionArea_comm, min_comm]

theorem overlapInner_ok (maxC : ℕ) (thr : ℚ) (a : BBoxQ) (bs : List BBoxQ)
    (st : OverlapEstimate) (hpos : ∀ b ∈ bs, 0 < boxArea b)
    (hcap : st.comparisons + bs.length ≤ maxC) :
    overlapInner maxC thr a (boxArea a) bs st
      = .ok ⟨st.overlappingPairs
              + List.countP (hitPred thr) (bs.map fun b => (a, b)),
            List.foldl mofStep st.maxOverlapFraction (bs.map fun b => (a, b)),
            st.comparisons + bs.length⟩ := by
  induction bs generalizing st with
  | nil => simp [overlapInner]
  | cons b rest ih =>
    have hb : 0 < boxArea b := hpos b (List.mem_cons_self b rest)
    have hcap1 : ¬ maxC ≤ st.comparisons := by
      simp only [List.length_cons] at hcap
      omega
    have hrest : ∀ x ∈ rest, 0 < boxArea x :=
      fun x hx => hpos x (List.mem_cons_of_mem b hx)
    have hcap2 : st.comparisons + 1 + rest.length ≤ maxC := by
      simp only [List.length_cons] at hcap
      omega
    simp only [overlapInner]
    rw [if_neg hcap1, if_neg (not_le.mpr hb)]
    by_cases hint : intersectionArea a b ≤ 0
    · rw [if_pos hint]
      rw [ih _ hrest hcap2]
      have hhit : hitPred thr (a, b) = false := by
        unfold hitPred
        simp [not_lt.mpr hint]
      have hmof : mofStep st.maxOverlapFraction (a, b) = st.maxOverlapFraction := by
        unfold mofStep
        rw [if_pos hint]
      simp only [Except.ok.injEq, OverlapEstimate.mk.injEq, List.map_cons,
        List.countP_cons, List.foldl_cons, List.length_cons]
      refine ⟨?_, ?_, ?_⟩
      · rw [hhit]
        simp
      · rw [hmof]
      · omega
    · rw [if_neg hint]
      have hmof : mofStep st.maxOverlapFraction (a, b)
          = (if st.maxOverlapFraction
                < intersectionArea a b / min (boxArea a) (boxArea b) then
              intersectionArea a b / min (boxArea a) (boxArea b)
            else st.maxOverlapFraction) := by
        unfold mofStep
        rw [if_neg hint]
      by_cases hthr : thr ≤ intersectionArea a b / min (boxArea a) (boxArea b)
      · rw [if_pos hthr, ih _ hrest hcap2]
        have hhit : hitPred thr (a, b) = true := by
          unfold hitPred
          simp [not_le.mp hint, hthr]
        simp only [Except.ok.injEq, OverlapEstimate.mk.injEq, List.map_cons,
          List.countP_cons, List.foldl_cons, List.length_cons]
        refine ⟨?_, ?_, ?_⟩
        · rw [hhit]
          simp only [if_true]
          omega
        · rw [hmof]
        · omega
      · rw [if_neg hthr, ih _ hrest hcap2]
        have hhit : hitPred thr (a, b) = false := by
          unfold hitPred
          simp [hthr]
        simp only [Except.ok.injEq, OverlapEstimate.mk.injEq, List.map_cons,
          List.countP_cons, List.foldl_cons, List.length_cons]
        refine ⟨?_, ?_, ?_⟩
        · rw [hhit]
          simp
        · rw [hmof]
        · omega

theorem overlapOuter_ok (maxC : ℕ) (thr : ℚ) (l : List BBoxQ)
    (st : OverlapEstimate) (hpos : ∀ b ∈ l, 0 < boxArea b)
    (hcap : st.comparisons + (listPairs l).length ≤ maxC) :
    overlapOuter maxC thr l st
      = ⟨st.overlappingPairs + List.countP (hitPred thr) (listPairs l),
         List.foldl mofStep st.maxOverlapFraction (listPairs l),
         st.comparisons + (listPairs l).length⟩ := by
  induction l generalizing st with
  | nil => simp [overlapOuter, listPairs]
  | cons a rest ih =>
    have ha : 0 < boxArea a := hpos a (List.mem_cons_self a rest)
    have hrest : ∀ x ∈ rest, 0 < boxArea x :=
      fun x hx => hpos x (List.mem_cons_of_mem a hx)
    have hlen : (listPairs (a :: rest)).length
        = rest.length + (listPairs rest).length := by
      simp [listPairs]
    rw [hlen] at hcap
    simp only [overlapOuter]
    rw [if_neg (not_le.mpr ha)]
    rw [overlapInner_ok maxC thr a rest st hrest (by omega)]
    show overlapOuter maxC thr rest
        ⟨st.overlappingPairs
            + List.countP (hitPred thr) (rest.map fun b => (a, b)),
          List.foldl mofStep st.maxOverlapFraction (rest.map fun b => (a, b)),
          st.comparisons + rest.length⟩ = _
    rw [ih _ hrest
      (by
        show st.comparisons + rest.length + (listPairs rest).length ≤ maxC
        omega)]
    have hpairs : listPairs (a :: rest)
        = (rest.map fun y => (a, y)) ++ listPairs rest := rfl
    simp only [hpairs, List.countP_append, List.foldl_append,
      List.length_append, List.length_map]
    congr 1 <;> first | rfl | omega

theorem estimateOverlap_spec (boxes : List BBoxQ)
    (hpos : ∀ b ∈ boxes, 0 < boxArea b)
    (hcap : (listPairs boxes).length ≤ 15000) :
    estimateOverlap boxes
      = ⟨List.countP (hitPred (18/100)) (listPairs boxes),
         List.foldl mofStep 0 (listPairs boxes),
         (listPairs boxes).length⟩ := by
  unfold estimateOverlap
  rw [overlapOuter_ok 15000 (18/100) boxes ⟨0, 0, 0⟩ hpos (by simpa)]
  simp

theorem mofFold_eq_maxFold (prs : List (BBoxQ × BBoxQ)) (acc : ℚ)
    (hacc : 0 ≤ acc) :
    List.foldl mofStep acc prs
      = List.foldl (fun m x => max m x) acc (prs.map clipFrac) := by
  induction prs generalizing acc with
  | nil => rfl
  | cons pr rest ih =>
    have h1 : mofStep acc pr = max acc (clipFrac pr) := by
      unfold mofStep clipFrac
      by_cases hint : intersectionArea pr.1 pr.2 ≤ 0
      · rw [if_pos hint, if_pos hint, max_eq_left hacc]
      · rw [if_neg hint, if_neg hint]
        rcases le_or_lt (intersectionArea pr.1 pr.2
            / min (boxArea pr.1) (boxArea pr.2)) acc with h | h
        · rw [if_neg (not_lt.mpr h), max_eq_left h]
        · rw [if_pos h, max_eq_right h.le]
    have h2 : 0 ≤ mofStep acc pr := by
      rw [h1]
      exact le_trans hacc (le_max_left _ _)
    simp only [List.foldl_cons, List.map_cons, h1]
    exact ih _ (le_trans hacc (le_max_left _ _))

/-- C8 (amended): `estimateOverlap` with its defaults returns the same
record for any permutation of the input boxes, provided every box has
positive area and the default comparison cap of 15000 pairwise
comparisons is not reached (the counterexample shows the `comparisons`
counter is order-dependent when zero-area boxes are present, because the
outer loop skips them without counting while the inner loop counts them). -/
theorem estimateOverlap_perm (l l2 : List BBoxQ) (hperm : l.Perm l2)
    (hpos : ∀ b ∈ l, 0 < boxArea b)
    (hcap : l.length * (l.length - 1) ≤ 30000) :
    estimateOverlap l = estimateOverlap l2 := by
  have hpos2 : ∀ b ∈ l2, 0 < boxArea b := fun b hb =>
    hpos b (hperm.mem_iff.mpr hb)
  have hlen2 : l2.length = l.length := hperm.length_eq.symm
  have hcap1 : (listPairs l).length ≤ 15000 := by
    have := listPairs_length l
    omega
  have hcap2 : (listPairs l2).length ≤ 15000 := by
    have := listPairs_length l2
    rw [hlen2] at this
    omega
  rw [estimateOverlap_spec l hpos hcap1, estimateOverlap_spec l2 hpos2 hcap2]
  have hhit := listPairs_map_sym_perm (fun a b => hitPred (18/100) (a, b))
    (fun a b => hitPred_swap (18/100) a b) hperm
  have hclip := listPairs_map_sym_perm (fun a b => clipFrac (a, b))
    (fun a b => clipFrac_swap a b) hperm
  have heta1 : ∀ ps : List (BBoxQ × BBoxQ),
      (ps.map fun pr => hitPred (18/100) (pr.1, pr.2))
        = ps.map (hitPred (18/100)) := by
    intro ps
    simp
  have heta2 : ∀ ps : List (BBoxQ × BBoxQ),
      (ps.map fun pr => clipFrac (pr.1, pr.2)) = ps.map clipFrac := by
    intro ps
    simp
  rw [heta1, heta1] at hhit
  rw [heta2, heta2] at hclip
  have hop : List.countP (hitPred (18/100)) (listPairs l)
      = List.countP (hitPred (18/100)) (listPairs l2) := by
    have h1 := hhit.countP_eq (fun b => b)
    simpa [List.countP_map] using h1
  have hmof : List.foldl mofStep 0 (listPairs l)
      = List.foldl mofStep 0 (listPairs l2) := by
    rw [mofFold_eq_maxFold _ _ le_rfl, mofFold_eq_maxFold _ _ le_rfl]
    haveI : RightCommutative (fun (m x : ℚ) => max m x) :=
      ⟨fun b a1 a2 => by rw [max_assoc, max_comm a1 a2, ← max_assoc]⟩
    exact hclip.foldl_eq 0
  have hcmp : (listPairs l).length = (listPairs l2).length := by
    have := hhit.length_eq
    simpa using this
  rw [hop, hmof, hcmp]

/-- A disjoint 10×10 box. -/
def boxB : BBoxQ := ⟨20, 20, 10, 10⟩

/-- Witness for C8 (amended): two positive-area boxes give the same
record in either order. -/
theorem estimateOverlap_perm_witness :
    estimateOverlap [boxA, boxB] = estimateOverlap [boxB, boxA] :=
  estimateOverlap_perm [boxA, boxB] [boxB, boxA]
    (List.Perm.swap boxB boxA [])
    (by
      intro b hb
      simp only [List.mem_cons, List.not_mem_nil, or_false] at hb
      rcases hb with rfl | rfl <;> norm_num [boxArea, boxA, boxB])
    (by norm_num)

/-- Integer contour point, as stored in a `CV_32SC2` mat. -/
structure IntPt where
  x : ℤ
  y : ℤ
deriving DecidableEq, Repr

/-- Integer rectangle, as returned by `cv.boundingRect`. -/
structure IntRect where
  x : ℤ
  y : ℤ
  width : ℤ
  height : ℤ
deriving DecidableEq, Repr

/-- The OpenCV module is an injected parameter (`cv`) in the source; its
geometric operations used by the extractor are modelled as an abstract
record of functions on integer contours.  `approxPolyDP` takes the
contour and the epsilon; `arcLength` and `contourArea` are on the closed
polygon. -/
structure CvOps where
  arcLength : List IntPt → ℚ
  approxPolyDP : List IntPt → ℚ → List IntPt
  boundingRect : List IntPt → IntRect
  convexHull : List IntPt → List IntPt
  contourArea : List IntPt → ℚ

/-- Embedding of `toMatOfPoint`: rounds rational points to integers
(`Math.round` = floor of value plus one half, the same as Lean `round`). -/
def toMatOfPoint (pts : List PointQ) : List IntPt :=
  pts.map fun p => ⟨round p.x, round p.y⟩

/-- Filter options of the extractor (`ExtractPiecesOptions`), with the
shared defaults `borderMarginPx` 6, `paddingPx` 6, `minSolidity` 0.80,
`maxAspectRatio` 4.0, `maxPieces` 200. -/
structure ExtractOptions where
  borderMarginPx : ℚ
  paddingPx : ℚ
  minSolidity : ℚ
  maxAspectRatio : ℚ
  maxPieces : ℕ
deriving DecidableEq, Repr

/-- The default extractor options shared by both implementations. -/
def extractDefaults : ExtractOptions := ⟨6, 6, 80/100, 40/10, 200⟩

/-- The processed-coordinate contour actually used for a candidate by the
extractors: the rounded contour, re-simplified by `approxPolyDP` at
epsilon 0.005 × perimeter, falling back to the unsimplified contour when
fewer than 3 points survive. -/
def candUseCnt (ops : CvOps) (scale : ℚ) (cand : PieceCandidate) :
    List IntPt :=
  let ptsProc := cand.contour.map fun p => PointQ.mk (p.x / scale) (p.y / scale)
  let cnt := toMatOfPoint ptsProc
  let approx := ops.approxPolyDP cnt (5/1000 * ops.arcLength cnt)
  if 3 ≤ approx.length then approx else cnt

/-- The border-rejection test of both extractors on a candidate bounding
rectangle (`rect.x < borderMarginPx || ... || rect.y + rect.height >
procH - borderMarginPx`). -/
def borderBad (o : ExtractOptions) (procW procH : ℕ) (r : IntRect) : Prop :=
  (r.x : ℚ) < o.borderMarginPx ∨ (r.y : ℚ) < o.borderMarginPx
    ∨ (procW : ℚ) - o.borderMarginPx < (r.x : ℚ) + (r.width : ℚ)
    ∨ (procH : ℚ) - o.borderMarginPx < (r.y : ℚ) + (r.height : ℚ)

instance (o : ExtractOptions) (procW procH : ℕ) (r : IntRect) :
    Decidable (borderBad o procW procH r) := by
  unfold borderBad
  infer_instance

/-- The aspect ratio computed by both extractors from a bounding
rectangle. -/
def rectAspect (r : IntRect) : ℚ :=
  if 0 < r.width ∧ 0 < r.height then
    max ((r.width : ℚ) / (r.height : ℚ)) ((r.height : ℚ) / (r.width : ℚ))
  else 999

/-- The padded, frame-clamped processed-coordinate ROI the worker
extractor stores as `bboxProcessed` (`rx/ry/rw/rh` in
`filterAndExtractPiecesCore`). -/
def padRect (o : ExtractOptions) (procW procH : ℕ) (r : IntRect) : BBoxQ :=
  let rx := max 0 ((r.x : ℚ) - o.paddingPx)
  let ry := max 0 ((r.y : ℚ) - o.paddingPx)
  ⟨rx, ry, min ((procW : ℚ) - rx) ((r.width : ℚ) + o.paddingPx * 2),
    min ((procH : ℚ) - ry) ((r.height : ℚ) + o.paddingPx * 2)⟩

/-- Componentwise scaling of a box back to source coordinates. -/
def scaleBBox (b : BBoxQ) (s : ℚ) : BBoxQ :=
  ⟨b.x * s, b.y * s, b.width * s, b.height * s⟩

/-- Outcome of processing one candidate in an extractor loop body. -/
inductive CandOutcome
  | skipped
  | rejBorder
  | rejAspect
  | rejSolidity
  | kept (piece : ExtractedPiece)
deriving DecidableEq, Repr

/-- Embedding of the worker extractor loop body
(`filterAndExtractPiecesCore` in `vision-worker.js`) for one candidate:
convert the contour to processed coordinates, skip degenerate polygons,
simplify, compute the bounding rectangle and aspect, apply the border,
aspect and solidity filters in that order, and otherwise build the
extracted piece with the padded ROI and the freshly assigned `newId`
(`id: extracted.length + 1` in the source). -/
def processCandidateCore (ops : CvOps) (o : ExtractOptions)
    (procW procH : ℕ) (scale : ℚ) (newId : ℕ) (cand : PieceCandidate) :
    CandOutcome :=
  if (cand.contour.map fun p => PointQ.mk (p.x / scale) (p.y / scale)).length < 3 then
    .skipped
  else
    let useCnt := candUseCnt ops scale cand
    let rect := ops.boundingRect useCnt
    let aspect := rectAspect rect
    if borderBad o procW procH rect then .rejBorder
    else if o.maxAspectRatio < aspect then .rejAspect
    else
      let hull := ops.convexHull useCnt
      let area := ops.contourArea useCnt
      let hullArea := ops.contourArea hull
      let solidity := if 0 < hullArea then area / hullArea else 0
      if solidity < o.minSolidity then .rejSolidity
      else
        let roi := padRect o procW procH rect
        let contourProcessed := useCnt.map fun p => PointQ.mk (p.x : ℚ) (p.y : ℚ)
        let contourSource := contourProcessed.map fun p =>
          PointQ.mk (p.x * scale) (p.y * scale)
        .kept ⟨newId, scaleBBox roi scale, roi, ((round area : ℤ) : ℚ),
          solidity, aspect, "", contourSource, some contourProcessed,
          none, none, none⟩

/-- Result of an extractor run: the kept pieces and the per-stage
rejection counters rendered into the debug string by the source. -/
structure ExtractResult where
  pieces : List ExtractedPiece
  candidates : ℕ
  filteredBorder : ℕ
  filteredAspect : ℕ
  filteredSolidity : ℕ
deriving DecidableEq, Repr

/-- The worker extractor loop over the candidates with the `maxPieces`
break at the top of each iteration. -/
def coreExtractLoop (ops : CvOps) (o : ExtractOptions) (procW procH : ℕ)
    (scale : ℚ) : List PieceCandidate → ExtractResult → ExtractResult
  | [], acc => acc
  | cand :: rest, acc =>
    if o.maxPieces ≤ acc.pieces.length then acc
    else
      let acc1 : ExtractResult := { acc with candidates := acc.candidates + 1 }
      match processCandidateCore ops o procW procH scale
          (acc1.pieces.length + 1) cand with
      | .skipped => coreExtractLoop ops o procW procH scale rest acc1
      | .rejBorder => coreExtractLoop ops o procW procH scale rest
          { acc1 with filteredBorder := acc1.filteredBorder + 1 }
      | .rejAspect => coreExtractLoop ops o procW procH scale rest
          { acc1 with filteredAspect := acc1.filteredAspect + 1 }
      | .rejSolidity => coreExtractLoop ops o procW procH scale rest
          { acc1 with filteredSolidity := acc1.filteredSolidity + 1 }
      | .kept p => coreExtractLoop ops o procW procH scale rest
          { acc1 with pieces := acc1.pieces ++ [p] }

/-- Embedding of the worker `filterAndExtractPiecesCore`
(`vision-worker.js`): runs the loop from an empty accumulator using the
segmentation debug dimensions and scale. -/
def filterAndExtractPiecesCore (ops : CvOps) (o : ExtractOptions)
    (seg : SegmentPiecesResult) : ExtractResult :=
  coreExtractLoop ops o seg.debug.processedWidth seg.debug.processedHeight
    seg.debug.scaleToSource seg.pieces ⟨[], 0, 0, 0, 0⟩

/-- The JS `clamp` helper of `extractPieces.ts`. -/
def clampQ (v lo hi : ℚ) : ℚ := max lo (min hi v)

/-- The padded ROI the main-thread extractor stores as `bboxProcessed`
(`extractPieces.ts` lines computing `rx/ry/r2x/r2y/rw/rh` via `clamp`). -/
def padRectMain (o : ExtractOptions) (procW procH : ℕ) (r : IntRect) : BBoxQ :=
  let rx := clampQ ((r.x : ℚ) - o.paddingPx) 0 ((procW : ℚ) - 1)
  let ry := clampQ ((r.y : ℚ) - o.paddingPx) 0 ((procH : ℚ) - 1)
  let r2x := clampQ ((r.x : ℚ) + (r.width : ℚ) + o.paddingPx) 0 (procW : ℚ)
  let r2y := clampQ ((r.y : ℚ) + (r.height : ℚ) + o.paddingPx) 0 (procH : ℚ)
  ⟨rx, ry, max 1 (r2x - rx), max 1 (r2y - ry)⟩

/-- Embedding of the main-thread extractor loop body
(`filterAndExtractPieces` in `extractPieces.ts`) for one candidate: the
same filter chain as the worker, but the kept piece takes over the
candidate id, source bounding box and source contour unchanged
(`id: cand.id`, `bboxSource: cand.bbox`, `contourSource: cand.contour`),
and the preview data URL is produced by the abstract `previewFn` (canvas
rendering). -/
def processCandidateMain (ops : CvOps) (previewFn : BBoxQ → String)
    (o : ExtractOptions) (procW procH : ℕ) (scale : ℚ)
    (cand : PieceCandidate) : CandOutcome :=
  if (cand.contour.map fun p => PointQ.mk (p.x / scale) (p.y / scale)).length < 3 then
    .skipped
  else
    let useCnt := candUseCnt ops scale cand
    let rect := ops.boundingRect useCnt
    let aspect := rectAspect rect
    if borderBad o procW procH rect then .rejBorder
    else if o.maxAspectRatio < aspect then .rejAspect
    else
      let hull := ops.convexHull useCnt
      let area := ops.contourArea useCnt
      let hullArea := ops.contourArea hull
      let solidity := if 0 < hullArea then area / hullArea else 0
      if solidity < o.minSolidity then .rejSolidity
      else
        let roi := padRectMain o procW procH rect
        .kept ⟨cand.id, cand.bbox, roi, ((round area : ℤ) : ℚ), solidity,
          aspect, previewFn roi, cand.contour, none, none, none, none⟩

/-- The main-thread extractor loop, same break/counter structure as the
worker loop. -/
def mainExtractLoop (ops : CvOps) (previewFn : BBoxQ → String)
    (o : ExtractOptions) (procW procH : ℕ) (scale : ℚ) :
    List PieceCandidate → ExtractResult → ExtractResult
  | [], acc => acc
  | cand :: rest, acc =>
    if o.maxPieces ≤ acc.pieces.length then acc
    else
      let acc1 : ExtractResult := { acc with candidates := acc.candidates + 1 }
      match processCandidateMain ops previewFn o procW procH scale cand with
      | .skipped => mainExtractLoop ops previewFn o procW procH scale rest acc1
      | .rejBorder => mainExtractLoop ops previewFn o procW procH scale rest
          { acc1 with filteredBorder := acc1.filteredBorder + 1 }
      | .rejAspect => mainExtractLoop ops previewFn o procW procH scale rest
          { acc1 with filteredAspect := acc1.filteredAspect + 1 }
      | .rejSolidity => mainExtractLoop ops previewFn o procW procH scale rest
          { acc1 with filteredSolidity := acc1.filteredSolidity + 1 }
      | .kept p => mainExtractLoop ops previewFn o procW procH scale rest
          { acc1 with pieces := acc1.pieces ++ [p] }

/-- Embedding of the main-thread `filterAndExtractPieces`
(`extractPieces.ts`): a missing 2D context is a hard error thrown to the
caller; otherwise the loop runs from an empty accumulator. -/
def filterAndExtractPieces (ops : CvOps) (previewFn : BBoxQ → String)
    (o : ExtractOptions) (seg : SegmentPiecesResult) (ctxOk : Bool) :
    Except String ExtractResult :=
  if !ctxOk then .error "Processed frame canvas has no 2D context."
  else .ok (mainExtractLoop ops previewFn o seg.debug.processedWidth
    seg.debug.processedHeight seg.debug.scaleToSource seg.pieces
    ⟨[], 0, 0, 0, 0⟩)

theorem processCandidateCore_kept {ops : CvOps} {o : ExtractOptions}
    {procW procH : ℕ} {scale : ℚ} {newId : ℕ} {cand : PieceCandidate}
    {p : ExtractedPiece}
    (h : processCandidateCore ops o procW procH scale newId cand = .kept p) :
    p.id = newId
      ∧ ¬ borderBad o procW procH (ops.boundingRect (candUseCnt ops scale cand))
      ∧ p.bboxProcessed = padRect o procW procH
          (ops.boundingRect (candUseCnt ops scale cand)) := by
  simp only [processCandidateCore] at h
  split at h
  · simp at h
  · split at h
    next hb => simp at h
    next hb =>
      split at h
      · simp at h
      · split at h <;> split at h
        · simp at h
        · injection h with h2
          subst h2
          exact ⟨rfl, hb, rfl⟩
        · simp at h
        · injection h with h2
          subst h2
          exact ⟨rfl, hb, rfl⟩

theorem processCandidateMain_kept {ops : CvOps} {previewFn : BBoxQ → String}
    {o : ExtractOptions} {procW procH : ℕ} {scale : ℚ}
    {cand : PieceCandidate} {p : ExtractedPiece}
    (h : processCandidateMain ops previewFn o procW procH scale cand = .kept p) :
    p.id = cand.id ∧ p.bboxSource = cand.bbox
      ∧ p.contourSource = cand.contour
      ∧ ¬ borderBad o procW procH
          (ops.boundingRect (candUseCnt ops scale cand))
      ∧ p.bboxProcessed = padRectMain o procW procH
          (ops.boundingRect (candUseCnt ops scale cand)) := by
  simp only [processCandidateMain] at h
  split at h
  · simp at h
  · split at h
    next hb => simp at h
    next hb =>
      split at h
      · simp at h
      · split at h <;> split at h
        · simp at h
        · injection h with h2
          subst h2
          exact ⟨rfl, rfl, rfl, hb, rfl⟩
        · simp at h
        · injection h with h2
          subst h2
          exact ⟨rfl, rfl, rfl, hb, rfl⟩

theorem processCandidateCore_rejBorder_iff (ops : CvOps) (o : ExtractOptions)
    (procW procH : ℕ) (scale : ℚ) (newId : ℕ) (cand : PieceCandidate) :
    processCandidateCore ops o procW procH scale newId cand = .rejBorder
      ↔ (¬ cand.contour.length < 3
        ∧ borderBad o procW procH
          (ops.boundingRect (candUseCnt ops scale cand))) := by
  constructor
  · intro h
    simp only [processCandidateCore] at h
    split at h
    next h3 =>
      simp at h
    next h3 =>
      refine ⟨by simpa using h3, ?_⟩
      split at h
      next hb => exact hb
      next hb =>
        split at h
        · simp at h
        · split at h <;> split at h <;> simp at h
  · intro ⟨h3, hb⟩
    simp only [processCandidateCore]
    rw [if_neg (by simpa using h3), if_pos hb]

theorem processCandidateMain_rejBorder_iff (ops : CvOps)
    (previewFn : BBoxQ → String) (o : ExtractOptions)
    (procW procH : ℕ) (scale : ℚ) (cand : PieceCandidate) :
    processCandidateMain ops previewFn o procW procH scale cand = .rejBorder
      ↔ (¬ cand.contour.length < 3
        ∧ borderBad o procW procH
          (ops.boundingRect (candUseCnt ops scale cand))) := by
  constructor
  · intro h
    simp only [processCandidateMain] at h
    split at h
    next h3 =>
      simp at h
    next h3 =>
      refine ⟨by simpa using h3, ?_⟩
      split at h
      next hb => exact hb
      next hb =>
        split at h
        · simp at h
        · split at h <;> split at h <;> simp at h
  · intro ⟨h3, hb⟩
    simp only [processCandidateMain]
    rw [if_neg (by simpa using h3), if_pos hb]

theorem coreLoop_pieces_margin (ops : CvOps) (o : ExtractOptions)
    (procW procH : ℕ) (scale : ℚ) (cs : List PieceCandidate)
    (acc : ExtractResult) :
    ∀ p ∈ (coreExtractLoop ops o procW procH scale cs acc).pieces,
      p ∈ acc.pieces
        ∨ ∃ r : IntRect, ¬ borderBad o procW procH r
            ∧ p.bboxProcessed = padRect o procW procH r := by
  induction cs generalizing acc with
  | nil =>
    intro p hp
    exact .inl hp
  | cons c rest ih =>
    intro p hp
    simp only [coreExtractLoop] at hp
    split at hp
    · exact .inl hp
    · split at hp
      · exact ih { acc with candidates := acc.candidates + 1 } p hp
      · exact ih { acc with candidates := acc.candidates + 1, filteredBorder := acc.filteredBorder + 1 } p hp
      · exact ih { acc with candidates := acc.candidates + 1, filteredAspect := acc.filteredAspect + 1 } p hp
      · exact ih { acc with candidates := acc.candidates + 1, filteredSolidity := acc.filteredSolidity + 1 } p hp
      next q hq =>
        rcases ih { acc with candidates := acc.candidates + 1, pieces := acc.pieces ++ [q] } p hp with hmem | hex
        · simp only [List.mem_append, List.mem_singleton] at hmem
          rcases hmem with hmem | rfl
          · exact .inl hmem
          · obtain ⟨_, hb, hbox⟩ := processCandidateCore_kept hq
            exact .inr ⟨_, hb, hbox⟩
        · exact .inr hex

theorem coreLoop_borderCount (ops : CvOps) (o : ExtractOptions)
    (procW procH : ℕ) (scale : ℚ) (cs : List PieceCandidate)
    (acc : ExtractResult)
    (hcap : acc.pieces.length + cs.length ≤ o.maxPieces) :
    (coreExtractLoop ops o procW procH scale cs acc).filteredBorder
      = acc.filteredBorder
        + cs.countP (fun c => decide (¬ c.contour.length < 3
            ∧ borderBad o procW procH
              (ops.boundingRect (candUseCnt ops scale c)))) := by
  induction cs generalizing acc with
  | nil => simp [coreExtractLoop]
  | cons c rest ih =>
    have hnocap : ¬ o.maxPieces ≤ acc.pieces.length := by
      simp only [List.length_cons] at hcap
      omega
    have hpred : (decide (¬ c.contour.length < 3
          ∧ borderBad o procW procH
            (ops.boundingRect (candUseCnt ops scale c))))
        = decide (processCandidateCore ops o procW procH scale
            (acc.pieces.length + 1) c = .rejBorder) :=
      decide_eq_decide.mpr
        (processCandidateCore_rejBorder_iff ops o procW procH scale
          (acc.pieces.length + 1) c).symm
    simp only [coreExtractLoop]
    rw [if_neg hnocap]
    simp only [List.countP_cons, hpred]
    rcases hout : processCandidateCore ops o procW procH scale
        (acc.pieces.length + 1) c with _ | _ | _ | _ | q
    · rw [ih _ (by simp only [List.length_cons] at hcap ⊢; omega)]
      simp [hout]
    · rw [ih _ (by simp only [List.length_cons] at hcap ⊢; omega)]
      simp only [hout]
      simp
      omega
    · rw [ih _ (by simp only [List.length_cons] at hcap ⊢; omega)]
      simp [hout]
    · rw [ih _ (by simp only [List.length_cons] at hcap ⊢; omega)]
      simp [hout]
    · rw [ih _ (by
        show (acc.pieces ++ [q]).length + rest.length ≤ o.maxPieces
        rw [List.length_append]
        simp only [List.length_cons] at hcap
        simp only [List.length_singleton]
        omega)]
      simp [hout]

theorem mainLoop_sources (ops : CvOps) (previewFn : BBoxQ → String)
    (o : ExtractOptions) (procW procH : ℕ) (scale : ℚ)
    (cs : List PieceCandidate) (acc : ExtractResult) :
    ∀ p ∈ (mainExtractLoop ops previewFn o procW procH scale cs acc).pieces,
      p ∈ acc.pieces
        ∨ ∃ cand ∈ cs, p.id = cand.id ∧ p.bboxSource = cand.bbox
            ∧ p.contourSource = cand.contour := by
  induction cs generalizing acc with
  | nil =>
    intro p hp
    exact .inl hp
  | cons c rest ih =>
    intro p hp
    simp only [mainExtractLoop] at hp
    split at hp
    · exact .inl hp
    · have hsub : ∀ q : ExtractedPiece, (∃ cand ∈ rest, q.id = cand.id
          ∧ q.bboxSource = cand.bbox ∧ q.contourSource = cand.contour)
          → ∃ cand ∈ c :: rest, q.id = cand.id ∧ q.bboxSource = cand.bbox
              ∧ q.contourSource = cand.contour := by
        rintro q ⟨cand, hc, hq⟩
        exact ⟨cand, List.mem_cons_of_mem c hc, hq⟩
      split at hp
      · exact (ih _ p hp).imp id (hsub p)
      · exact (ih _ p hp).imp id (hsub p)
      · exact (ih _ p hp).imp id (hsub p)
      · exact (ih _ p hp).imp id (hsub p)
      next q hq =>
        rcases ih _ p hp with hmem | hex
        · simp only [List.mem_append, List.mem_singleton] at hmem
          rcases hmem with hmem | rfl
          · exact .inl hmem
          · obtain ⟨hid, hbbox, hcont, _⟩ := processCandidateMain_kept hq
            exact .inr ⟨c, List.mem_cons_self c rest, hid, hbbox, hcont⟩
        · exact .inr (hsub p hex)

theorem mainLoop_pieces_margin (ops : CvOps) (previewFn : BBoxQ → String)
    (o : ExtractOptions) (procW procH : ℕ) (scale : ℚ)
    (cs : List PieceCandidate) (acc : ExtractResult) :
    ∀ p ∈ (mainExtractLoop ops previewFn o procW procH scale cs acc).pieces,
      p ∈ acc.pieces
        ∨ ∃ r : IntRect, ¬ borderBad o procW procH r
            ∧ p.bboxProcessed = padRectMain o procW procH r := by
  induction cs generalizing acc with
  | nil =>
    intro p hp
    exact .inl hp
  | cons c rest ih =>
    intro p hp
    simp only [mainExtractLoop] at hp
    split at hp
    · exact .inl hp
    · split at hp
      · exact ih { acc with candidates := acc.candidates + 1 } p hp
      · exact ih { acc with candidates := acc.candidates + 1, filteredBorder := acc.filteredBorder + 1 } p hp
      · exact ih { acc with candidates := acc.candidates + 1, filteredAspect := acc.filteredAspect + 1 } p hp
      · exact ih { acc with candidates := acc.candidates + 1, filteredSolidity := acc.filteredSolidity + 1 } p hp
      next q hq =>
        rcases ih { acc with candidates := acc.candidates + 1, pieces := acc.pieces ++ [q] } p hp with hmem | hex
        · simp only [List.mem_append, List.mem_singleton] at hmem
          rcases hmem with hmem | rfl
          · exact .inl hmem
          · obtain ⟨_, _, _, hb, hbox⟩ := processCandidateMain_kept hq
            exact .inr ⟨_, hb, hbox⟩
        · exact .inr hex

theorem mainLoop_borderCount (ops : CvOps) (previewFn : BBoxQ → String)
    (o : ExtractOptions) (procW procH : ℕ) (scale : ℚ)
    (cs : List PieceCandidate) (acc : ExtractResult)
    (hcap : acc.pieces.length + cs.length ≤ o.maxPieces) :
    (mainExtractLoop ops previewFn o procW procH scale cs acc).filteredBorder
      = acc.filteredBorder
        + cs.countP (fun c => decide (¬ c.contour.length < 3
            ∧ borderBad o procW procH
              (ops.boundingRect (candUseCnt ops scale c)))) := by
  induction cs generalizing acc with
  | nil => simp [mainExtractLoop]
  | cons c rest ih =>
    have hnocap : ¬ o.maxPieces ≤ acc.pieces.length := by
      simp only [List.length_cons] at hcap
      omega
    have hpred : (decide (¬ c.contour.length < 3
          ∧ borderBad o procW procH
            (ops.boundingRect (candUseCnt ops scale c))))
        = decide (processCandidateMain ops previewFn o procW procH scale c
            = .rejBorder) :=
      decide_eq_decide.mpr
        (processCandidateMain_rejBorder_iff ops previewFn o procW procH
          scale c).symm
    simp only [mainExtractLoop]
    rw [if_neg hnocap]
    simp only [List.countP_cons, hpred]
    rcases hout : processCandidateMain ops previewFn o procW procH scale c
        with _ | _ | _ | _ | q
    · rw [ih _ (by simp only [List.length_cons] at hcap ⊢; omega)]
      simp [hout]
    · rw [ih _ (by simp only [List.length_cons] at hcap ⊢; omega)]
      simp only [hout]
      simp
      omega
    · rw [ih _ (by simp only [List.length_cons] at hcap ⊢; omega)]
      simp [hout]
    · rw [ih _ (by simp only [List.length_cons] at hcap ⊢; omega)]
      simp [hout]
    · rw [ih _ (by
        show (acc.pieces ++ [q]).length + rest.length ≤ o.maxPieces
        rw [List.length_append]
        simp only [List.length_cons] at hcap
        simp only [List.length_singleton]
        omega)]
      simp [hout]

theorem coreLoop_ids (ops : CvOps) (o : ExtractOptions) (procW procH : ℕ)
    (scale : ℚ) (cs : List PieceCandidate) (acc : ExtractResult)
    (hacc : acc.pieces.map (·.id) = List.range' 1 acc.pieces.length) :
    (coreExtractLoop ops o procW procH scale cs acc).pieces.map (·.id)
      = List.range' 1
        (coreExtractLoop ops o procW procH scale cs acc).pieces.length := by
  induction cs generalizing acc with
  | nil => exact hacc
  | cons c rest ih =>
    simp only [coreExtractLoop]
    split
    · exact hacc
    · split
      next hout => exact ih _ hacc
      next hout => exact ih _ hacc
      next hout => exact ih _ hacc
      next hout => exact ih _ hacc
      next q hout =>
        refine ih _ ?_
        obtain ⟨hid, _, _⟩ := processCandidateCore_kept hout
        show (acc.pieces ++ [q]).map (·.id)
          = List.range' 1 (acc.pieces ++ [q]).length
        rw [List.map_append, hacc, List.length_append]
        simp only [List.map_cons, List.map_nil, hid, List.length_singleton]
        rw [List.range'_1_concat, Nat.add_comm 1 acc.pieces.length]

/-- Signed shoelace cross sum of a closed polygon (remaining points, with
the first point closing the loop). -/
def polyCross : List IntPt → IntPt → ℤ
  | [], _ => 0
  | [p], first => p.x * first.y - first.x * p.y
  | p :: q :: rest, first => (p.x * q.y - q.x * p.y) + polyCross (q :: rest) first

/-- Exact polygon area (shoelace), matching `cv.contourArea` on integer
polygons. -/
def contourAreaImpl (pts : List IntPt) : ℚ :=
  match pts with
  | [] => 0
  | p :: _ => |((polyCross pts p : ℤ) : ℚ)| / 2

/-- Perimeter of an axis-aligned polygon (each edge horizontal or
vertical), matching `cv.arcLength` on such contours. -/
def periAxis : List IntPt → IntPt → ℤ
  | [], _ => 0
  | [p], first => |first.x - p.x| + |first.y - p.y|
  | p :: q :: rest, first => (|q.x - p.x| + |q.y - p.y|) + periAxis (q :: rest) first

/-- Axis-aligned arc length. -/
def arcLengthImpl (pts : List IntPt) : ℚ :=
  match pts with
  | [] => 0
  | p :: _ => ((periAxis pts p : ℤ) : ℚ)

/-- Bounding rectangle of an integer contour with OpenCV semantics
(width and height are max − min + 1). -/
def boundingRectImpl (pts : List IntPt) : IntRect :=
  match pts with
  | [] => ⟨0, 0, 0, 0⟩
  | p :: rest =>
    let minX := rest.foldl (fun m q => min m q.x) p.x
    let maxX := rest.foldl (fun m q => max m q.x) p.x
    let minY := rest.foldl (fun m q => min m q.y) p.y
    let maxY := rest.foldl (fun m q => max m q.y) p.y
    ⟨minX, minY, maxX - minX + 1, maxY - minY + 1⟩

/-- A concrete instantiation of the abstract OpenCV operations, agreeing
with the real ones on the convex axis-aligned polygons used in the
concrete inputs below: polygon simplification at the small epsilons in
play returns the vertices unchanged, and the convex hull of a convex
polygon is the polygon itself. -/
def sampleOps : CvOps :=
  ⟨arcLengthImpl, fun pts _ => pts, boundingRectImpl, fun pts => pts,
    contourAreaImpl⟩

/-- A 2-point (degenerate) candidate: skipped by both extractors. -/
def candSkip : PieceCandidate := ⟨1, 100, ⟨0, 10, 10, 10⟩, [⟨0, 10⟩, ⟨10, 10⟩]⟩

/-- A well-formed square candidate away from the border, id 2. -/
def candGood : PieceCandidate :=
  ⟨2, 400, ⟨20, 20, 20, 20⟩, [⟨20, 20⟩, ⟨40, 20⟩, ⟨40, 40⟩, ⟨20, 40⟩]⟩

/-- A 100×100 processed frame at scale 1 with the two candidates above. -/
def segTwo : SegmentPiecesResult :=
  ⟨[candSkip, candGood], ⟨100, 100, 100, 100, 1, false, "otsu", 2, 2⟩⟩

/-- The piece the worker extractor produces for `candGood` in `segTwo`. -/
def pieceG : ExtractedPiece :=
  ⟨1, ⟨14, 14, 33, 33⟩, ⟨14, 14, 33, 33⟩, 400, 1, 1, "",
    [⟨20, 20⟩, ⟨40, 20⟩, ⟨40, 40⟩, ⟨20, 40⟩],
    some [⟨20, 20⟩, ⟨40, 20⟩, ⟨40, 40⟩, ⟨20, 40⟩], none, none, none⟩

theorem candGood_useCnt :
    candUseCnt sampleOps 1 candGood
      = [⟨20, 20⟩, ⟨40, 20⟩, ⟨40, 40⟩, ⟨20, 40⟩] := by
  unfold candUseCnt
  norm_num [sampleOps, toMatOfPoint, candGood]

theorem candGood_kept :
    processCandidateCore sampleOps extractDefaults 100 100 1 1 candGood
      = .kept pieceG := by
  have h3 : ¬ (candGood.contour.map
      fun p => PointQ.mk (p.x / 1) (p.y / 1)).length < 3 := by
    norm_num [candGood]
  simp only [processCandidateCore, candGood_useCnt]
  rw [if_neg h3]
  have hrect : sampleOps.boundingRect [⟨20, 20⟩, ⟨40, 20⟩, ⟨40, 40⟩, ⟨20, 40⟩]
      = ⟨20, 20, 21, 21⟩ := by
    norm_num [sampleOps, boundingRectImpl]
  have harea : sampleOps.contourArea [⟨20, 20⟩, ⟨40, 20⟩, ⟨40, 40⟩, ⟨20, 40⟩]
      = 400 := by
    norm_num [sampleOps, contourAreaImpl, polyCross]
  have hhull : sampleOps.convexHull [⟨20, 20⟩, ⟨40, 20⟩, ⟨40, 40⟩, ⟨20, 40⟩]
      = [⟨20, 20⟩, ⟨40, 20⟩, ⟨40, 40⟩, ⟨20, 40⟩] := rfl
  rw [hrect, hhull, harea]
  rw [if_neg (by norm_num [borderBad, extractDefaults])]
  rw [if_neg (by norm_num [rectAspect, extractDefaults])]
  rw [if_pos (show (0:ℚ) < (400:ℚ) by norm_num)]
  rw [if_neg (by norm_num [extractDefaults])]
  show CandOutcome.kept _ = _
  congr 1
  unfold pieceG padRect scaleBBox rectAspect extractDefaults
  norm_num

theorem candSkip_skipped (newId : ℕ) :
    processCandidateCore sampleOps extractDefaults 100 100 1 newId candSkip
      = .skipped := by
  simp only [processCandidateCore]
  rw [if_pos (by norm_num [candSkip])]

theorem segTwo_core_result :
    filterAndExtractPiecesCore sampleOps extractDefaults segTwo
      = ⟨[pieceG], 2, 0, 0, 0⟩ := by
  show coreExtractLoop sampleOps extractDefaults 100 100 1
      [candSkip, candGood] ⟨[], 0, 0, 0, 0⟩ = _
  simp only [coreExtractLoop]
  rw [if_neg (by norm_num [extractDefaults])]
  rw [show (([] : List ExtractedPiece).length + 1) = 1 from rfl]
  rw [candSkip_skipped 1]
  rw [if_neg (by norm_num [extractDefaults])]
  rw [candGood_kept]
  rfl

/-- Counterexample for C4: in the worker extractor, ids are reassigned
sequentially over the kept pieces, not preserved: with a degenerate first
candidate (id 1, skipped) and a kept second candidate of id 2, the
single output piece carries id 1 although its geometry is that of the
candidate with id 2. -/
theorem worker_ids_not_preserved :
    (filterAndExtractPiecesCore sampleOps extractDefaults segTwo).pieces.map
        (·.id) = [1]
      ∧ (filterAndExtractPiecesCore sampleOps extractDefaults
          segTwo).pieces.map (·.contourSource) = [candGood.contour]
      ∧ candGood.id = 2 := by
  rw [segTwo_core_result]
  refine ⟨rfl, ?_, rfl⟩
  show [pieceG.contourSource] = [candGood.contour]
  norm_num [pieceG, candGood]

/-- C4 (amended): the main-thread extractor preserves ids: every output
piece carries the id, source bounding box and source contour of some
input candidate.  The worker extractor instead assigns sequential
1-based ids in kept order (id = position in the kept list), for every
abstract OpenCV instantiation, options and segmentation. -/
theorem extractor_id_semantics (ops : CvOps) (previewFn : BBoxQ → String)
    (o : ExtractOptions) (seg : SegmentPiecesResult) :
    (∀ res, filterAndExtractPieces ops previewFn o seg true = .ok res →
        ∀ p ∈ res.pieces, ∃ cand ∈ seg.pieces,
          p.id = cand.id ∧ p.bboxSource = cand.bbox
            ∧ p.contourSource = cand.contour)
      ∧ (filterAndExtractPiecesCore ops o seg).pieces.map (·.id)
          = List.range' 1
            (filterAndExtractPiecesCore ops o seg).pieces.length := by
  constructor
  · intro res hres p hp
    have hres2 : (mainExtractLoop ops previewFn o seg.debug.processedWidth
        seg.debug.processedHeight seg.debug.scaleToSource seg.pieces
        ⟨[], 0, 0, 0, 0⟩) = res := by
      have : filterAndExtractPieces ops previewFn o seg true
          = .ok (mainExtractLoop ops previewFn o seg.debug.processedWidth
            seg.debug.processedHeight seg.debug.scaleToSource seg.pieces
            ⟨[], 0, 0, 0, 0⟩) := rfl
      rw [this] at hres
      exact (Except.ok.injEq _ _).mp hres
    rw [← hres2] at hp
    rcases mainLoop_sources ops previewFn o seg.debug.processedWidth
        seg.debug.processedHeight seg.debug.scaleToSource seg.pieces
        ⟨[], 0, 0, 0, 0⟩ p hp with hmem | hex
    · simp at hmem
    · exact hex
  · exact coreLoop_ids ops o seg.debug.processedWidth
      seg.debug.processedHeight seg.debug.scaleToSource seg.pieces
      ⟨[], 0, 0, 0, 0⟩ rfl

/-- The piece the main-thread extractor produces for `candGood`. -/
def pieceGMain : ExtractedPiece :=
  ⟨2, ⟨20, 20, 20, 20⟩, ⟨14, 14, 33, 33⟩, 400, 1, 1, "",
    [⟨20, 20⟩, ⟨40, 20⟩, ⟨40, 40⟩, ⟨20, 40⟩], none, none, none, none⟩

theorem candGood_kept_main :
    processCandidateMain sampleOps (fun _ => "") extractDefaults 100 100 1
        candGood = .kept pieceGMain := by
  have h3 : ¬ (candGood.contour.map
      fun p => PointQ.mk (p.x / 1) (p.y / 1)).length < 3 := by
    norm_num [candGood]
  simp only [processCandidateMain, candGood_useCnt]
  rw [if_neg h3]
  have hrect : sampleOps.boundingRect [⟨20, 20⟩, ⟨40, 20⟩, ⟨40, 40⟩, ⟨20, 40⟩]
      = ⟨20, 20, 21, 21⟩ := by
    norm_num [sampleOps, boundingRectImpl]
  have harea : sampleOps.contourArea [⟨20, 20⟩, ⟨40, 20⟩, ⟨40, 40⟩, ⟨20, 40⟩]
      = 400 := by
    norm_num [sampleOps, contourAreaImpl, polyCross]
  have hhull : sampleOps.convexHull [⟨20, 20⟩, ⟨40, 20⟩, ⟨40, 40⟩, ⟨20, 40⟩]
      = [⟨20, 20⟩, ⟨40, 20⟩, ⟨40, 40⟩, ⟨20, 40⟩] := rfl
  rw [hrect, hhull, harea]
  rw [if_neg (by norm_num [borderBad, extractDefaults])]
  rw [if_neg (by norm_num [rectAspect, extractDefaults])]
  rw [if_pos (show (0:ℚ) < (400:ℚ) by norm_num)]
  rw [if_neg (by norm_num [extractDefaults])]
  show CandOutcome.kept _ = _
  congr 1
  unfold pieceGMain padRectMain clampQ rectAspect extractDefaults candGood
  norm_num

theorem segTwo_main_result :
    mainExtractLoop sampleOps (fun _ => "") extractDefaults 100 100 1
        [candSkip, candGood] ⟨[], 0, 0, 0, 0⟩ = ⟨[pieceGMain], 2, 0, 0, 0⟩ := by
  simp only [mainExtractLoop]
  rw [if_neg (by norm_num [extractDefaults])]
  rw [show processCandidateMain sampleOps (fun _ => "") extractDefaults
      100 100 1 candSkip = .skipped from by
    simp only [processCandidateMain]
    rw [if_pos (by norm_num [candSkip])]]
  rw [if_neg (by norm_num [extractDefaults])]
  rw [candGood_kept_main]
  rfl

/-- Witness for C4 (amended): on the concrete two-candidate segmentation,
the main-thread extractor keeps `candGood` as a piece with its original
id 2 and source geometry, and the worker result carries sequential ids. -/
theorem extractor_id_semantics_witness :
    (∃ cand ∈ segTwo.pieces, pieceGMain.id = cand.id
        ∧ pieceGMain.bboxSource = cand.bbox
        ∧ pieceGMain.contourSource = cand.contour)
      ∧ (filterAndExtractPiecesCore sampleOps extractDefaults
            segTwo).pieces.map (·.id)
          = List.range' 1 (filterAndExtractPiecesCore sampleOps
              extractDefaults segTwo).pieces.length := by
  obtain ⟨h1, h2⟩ :=
    extractor_id_semantics sampleOps (fun _ => "") extractDefaults segTwo
  refine ⟨?_, h2⟩
  refine h1 ⟨[pieceGMain], 2, 0, 0, 0⟩ ?_ pieceGMain (List.mem_singleton.mpr rfl)
  show Except.ok (mainExtractLoop sampleOps (fun _ => "") extractDefaults
    100 100 1 [candSkip, candGood] ⟨[], 0, 0, 0, 0⟩) = _
  rw [segTwo_main_result]

/-- A rectangle candidate whose bounding box starts exactly at the
default border margin (x = 6). -/
def candNearBorder : PieceCandidate :=
  ⟨1, 480, ⟨6, 30, 24, 20⟩, [⟨6, 30⟩, ⟨30, 30⟩, ⟨30, 50⟩, ⟨6, 50⟩]⟩

/-- A 100×100 processed frame at scale 1 with the near-border candidate. -/
def segNearBorder : SegmentPiecesResult :=
  ⟨[candNearBorder], ⟨100, 100, 100, 100, 1, false, "otsu", 1, 1⟩⟩

theorem candNearBorder_useCnt :
    candUseCnt sampleOps 1 candNearBorder
      = [⟨6, 30⟩, ⟨30, 30⟩, ⟨30, 50⟩, ⟨6, 50⟩] := by
  unfold candUseCnt
  norm_num [sampleOps, toMatOfPoint, candNearBorder]

/-- The piece the worker extractor produces for `candNearBorder`. -/
def pieceNB : ExtractedPiece :=
  ⟨1, ⟨0, 24, 37, 33⟩, ⟨0, 24, 37, 33⟩, 480, 1, 25/21, "",
    [⟨6, 30⟩, ⟨30, 30⟩, ⟨30, 50⟩, ⟨6, 50⟩],
    some [⟨6, 30⟩, ⟨30, 30⟩, ⟨30, 50⟩, ⟨6, 50⟩], none, none, none⟩

theorem candNearBorder_kept :
    processCandidateCore sampleOps extractDefaults 100 100 1 1 candNearBorder
      = .kept pieceNB := by
  have h3 : ¬ (candNearBorder.contour.map
      fun p => PointQ.mk (p.x / 1) (p.y / 1)).length < 3 := by
    norm_num [candNearBorder]
  simp only [processCandidateCore, candNearBorder_useCnt]
  rw [if_neg h3]
  have hrect : sampleOps.boundingRect [⟨6, 30⟩, ⟨30, 30⟩, ⟨30, 50⟩, ⟨6, 50⟩]
      = ⟨6, 30, 25, 21⟩ := by
    norm_num [sampleOps, boundingRectImpl]
  have harea : sampleOps.contourArea [⟨6, 30⟩, ⟨30, 30⟩, ⟨30, 50⟩, ⟨6, 50⟩]
      = 480 := by
    norm_num [sampleOps, contourAreaImpl, polyCross]
  have hhull : sampleOps.convexHull [⟨6, 30⟩, ⟨30, 30⟩, ⟨30, 50⟩, ⟨6, 50⟩]
      = [⟨6, 30⟩, ⟨30, 30⟩, ⟨30, 50⟩, ⟨6, 50⟩] := rfl
  rw [hrect, hhull, harea]
  rw [if_neg (by norm_num [borderBad, extractDefaults])]
  rw [if_neg (by norm_num [rectAspect, extractDefaults])]
  rw [if_pos (show (0:ℚ) < (480:ℚ) by norm_num)]
  rw [if_neg (by norm_num [extractDefaults])]
  show CandOutcome.kept _ = _
  congr 1
  unfold pieceNB padRect scaleBBox rectAspect extractDefaults
  norm_num

theorem segNearBorder_core_result :
    filterAndExtractPiecesCore sampleOps extractDefaults segNearBorder
      = ⟨[pieceNB], 1, 0, 0, 0⟩ := by
  show coreExtractLoop sampleOps extractDefaults 100 100 1
      [candNearBorder] ⟨[], 0, 0, 0, 0⟩ = _
  simp only [coreExtractLoop]
  rw [if_neg (by norm_num [extractDefaults])]
  rw [show (([] : List ExtractedPiece).length + 1) = 1 from rfl]
  rw [candNearBorder_kept]
  rfl

/-- The piece the main-thread extractor produces for `candNearBorder`. -/
def pieceNBMain : ExtractedPiece :=
  ⟨1, ⟨6, 30, 24, 20⟩, ⟨0, 24, 37, 33⟩, 480, 1, 25/21, "",
    [⟨6, 30⟩, ⟨30, 30⟩, ⟨30, 50⟩, ⟨6, 50⟩], none, none, none, none⟩

theorem candNearBorder_kept_main :
    processCandidateMain sampleOps (fun _ => "") extractDefaults 100 100 1
        candNearBorder = .kept pieceNBMain := by
  have h3 : ¬ (candNearBorder.contour.map
      fun p => PointQ.mk (p.x / 1) (p.y / 1)).length < 3 := by
    norm_num [candNearBorder]
  simp only [processCandidateMain, candNearBorder_useCnt]
  rw [if_neg h3]
  have hrect : sampleOps.boundingRect [⟨6, 30⟩, ⟨30, 30⟩, ⟨30, 50⟩, ⟨6, 50⟩]
      = ⟨6, 30, 25, 21⟩ := by
    norm_num [sampleOps, boundingRectImpl]
  have harea : sampleOps.contourArea [⟨6, 30⟩, ⟨30, 30⟩, ⟨30, 50⟩, ⟨6, 50⟩]
      = 480 := by
    norm_num [sampleOps, contourAreaImpl, polyCross]
  have hhull : sampleOps.convexHull [⟨6, 30⟩, ⟨30, 30⟩, ⟨30, 50⟩, ⟨6, 50⟩]
      = [⟨6, 30⟩, ⟨30, 30⟩, ⟨30, 50⟩, ⟨6, 50⟩] := rfl
  rw [hrect, hhull, harea]
  rw [if_neg (by norm_num [borderBad, extractDefaults])]
  rw [if_neg (by norm_num [rectAspect, extractDefaults])]
  rw [if_pos (show (0:ℚ) < (480:ℚ) by norm_num)]
  rw [if_neg (by norm_num [extractDefaults])]
  show CandOutcome.kept _ = _
  congr 1
  unfold pieceNBMain padRectMain clampQ rectAspect extractDefaults
    candNearBorder
  norm_num

theorem segNearBorder_main_result :
    mainExtractLoop sampleOps (fun _ => "") extractDefaults 100 100 1
        [candNearBorder] ⟨[], 0, 0, 0, 0⟩ = ⟨[pieceNBMain], 1, 0, 0, 0⟩ := by
  simp only [mainExtractLoop]
  rw [if_neg (by norm_num [extractDefaults])]
  rw [candNearBorder_kept_main]
  rfl

/-- Counterexample for C6: a candidate whose contour bounding rectangle
starts exactly at the border margin (x = 6) is kept, and the padded
`bboxProcessed` stored on the output piece starts at x = 0, i.e. within
`borderMarginPx` (6) of the left frame edge — so the output piece's
bounding rectangle does come within the margin of the frame border. -/
theorem extractor_output_touches_border :
    (filterAndExtractPiecesCore sampleOps extractDefaults
        segNearBorder).pieces.map (·.bboxProcessed.x) = [0]
      ∧ (0 : ℚ) < extractDefaults.borderMarginPx := by
  rw [segNearBorder_core_result]
  exact ⟨rfl, by norm_num [extractDefaults]⟩

/-- C6 (amended): in both the worker extractor and the main-thread
extractor, for every abstract OpenCV instantiation, preview renderer,
options and segmentation: (1) every output piece derives from a
candidate bounding rectangle that passed the border filter — at least
`borderMarginPx` away from every processed-frame edge — and its stored
`bboxProcessed` is that rectangle expanded by `paddingPx` and clamped to
the frame (which may touch the border); (2) when the `maxPieces` cap
cannot be hit, `filteredBorder` counts exactly the non-degenerate
candidates whose rectangle violates the margin; and (3) every such
candidate is rejected with the border outcome, never kept. -/
theorem extractor_border_rejection (ops : CvOps)
    (previewFn : BBoxQ → String) (o : ExtractOptions)
    (seg : SegmentPiecesResult) :
    (∀ p ∈ (filterAndExtractPiecesCore ops o seg).pieces,
        ∃ r : IntRect,
          (o.borderMarginPx ≤ (r.x : ℚ) ∧ o.borderMarginPx ≤ (r.y : ℚ)
            ∧ (r.x : ℚ) + (r.width : ℚ)
                ≤ (seg.debug.processedWidth : ℚ) - o.borderMarginPx
            ∧ (r.y : ℚ) + (r.height : ℚ)
                ≤ (seg.debug.processedHeight : ℚ) - o.borderMarginPx)
          ∧ p.bboxProcessed = padRect o seg.debug.processedWidth
              seg.debug.processedHeight r)
      ∧ (seg.pieces.length ≤ o.maxPieces →
          (filterAndExtractPiecesCore ops o seg).filteredBorder
            = seg.pieces.countP (fun c => decide (¬ c.contour.length < 3
                ∧ borderBad o seg.debug.processedWidth
                  seg.debug.processedHeight
                  (ops.boundingRect
                    (candUseCnt ops seg.debug.scaleToSource c)))))
      ∧ (∀ cand newId, ¬ cand.contour.length < 3
          → borderBad o seg.debug.processedWidth seg.debug.processedHeight
              (ops.boundingRect (candUseCnt ops seg.debug.scaleToSource cand))
          → processCandidateCore ops o seg.debug.processedWidth
              seg.debug.processedHeight seg.debug.scaleToSource newId cand
              = .rejBorder)
      ∧ (∀ res, filterAndExtractPieces ops previewFn o seg true = .ok res →
          (∀ p ∈ res.pieces,
            ∃ r : IntRect,
              (o.borderMarginPx ≤ (r.x : ℚ) ∧ o.borderMarginPx ≤ (r.y : ℚ)
                ∧ (r.x : ℚ) + (r.width : ℚ)
                    ≤ (seg.debug.processedWidth : ℚ) - o.borderMarginPx
                ∧ (r.y : ℚ) + (r.height : ℚ)
                    ≤ (seg.debug.processedHeight : ℚ) - o.borderMarginPx)
              ∧ p.bboxProcessed = padRectMain o seg.debug.processedWidth
                  seg.debug.processedHeight r)
          ∧ (seg.pieces.length ≤ o.maxPieces →
              res.filteredBorder
                = seg.pieces.countP (fun c => decide (¬ c.contour.length < 3
                    ∧ borderBad o seg.debug.processedWidth
                      seg.debug.processedHeight
                      (ops.boundingRect
                        (candUseCnt ops seg.debug.scaleToSource c))))))
      ∧ (∀ cand, ¬ cand.contour.length < 3
          → borderBad o seg.debug.processedWidth seg.debug.processedHeight
              (ops.boundingRect (candUseCnt ops seg.debug.scaleToSource cand))
          → processCandidateMain ops previewFn o seg.debug.processedWidth
              seg.debug.processedHeight seg.debug.scaleToSource cand
              = .rejBorder) := by
  refine ⟨?_, ?_, ?_, ?_, ?_⟩
  · intro p hp
    rcases coreLoop_pieces_margin ops o seg.debug.processedWidth
        seg.debug.processedHeight seg.debug.scaleToSource seg.pieces
        ⟨[], 0, 0, 0, 0⟩ p hp with hmem | ⟨r, hb, hbox⟩
    · simp at hmem
    · refine ⟨r, ?_, hbox⟩
      unfold borderBad at hb
      push_neg at hb
      exact ⟨hb.1, hb.2.1, hb.2.2.1, hb.2.2.2⟩
  · intro hcap
    have h := coreLoop_borderCount ops o seg.debug.processedWidth
      seg.debug.processedHeight seg.debug.scaleToSource seg.pieces
      ⟨[], 0, 0, 0, 0⟩ (by simpa using hcap)
    simpa using h
  · intro cand newId h3 hb
    exact (processCandidateCore_rejBorder_iff ops o seg.debug.processedWidth
      seg.debug.processedHeight seg.debug.scaleToSource newId cand).mpr
      ⟨h3, hb⟩
  · intro res hres
    have hres2 : (mainExtractLoop ops previewFn o seg.debug.processedWidth
        seg.debug.processedHeight seg.debug.scaleToSource seg.pieces
        ⟨[], 0, 0, 0, 0⟩) = res := by
      have hok : filterAndExtractPieces ops previewFn o seg true
          = .ok (mainExtractLoop ops previewFn o seg.debug.processedWidth
            seg.debug.processedHeight seg.debug.scaleToSource seg.pieces
            ⟨[], 0, 0, 0, 0⟩) := rfl
      rw [hok] at hres
      exact (Except.ok.injEq _ _).mp hres
    constructor
    · intro p hp
      rw [← hres2] at hp
      rcases mainLoop_pieces_margin ops previewFn o seg.debug.processedWidth
          seg.debug.processedHeight seg.debug.scaleToSource seg.pieces
          ⟨[], 0, 0, 0, 0⟩ p hp with hmem | ⟨r, hb, hbox⟩
      · simp at hmem
      · refine ⟨r, ?_, hbox⟩
        unfold borderBad at hb
        push_neg at hb
        exact ⟨hb.1, hb.2.1, hb.2.2.1, hb.2.2.2⟩
    · intro hcap
      rw [← hres2]
      have h := mainLoop_borderCount ops previewFn o
        seg.debug.processedWidth seg.debug.processedHeight
        seg.debug.scaleToSource seg.pieces
        ⟨[], 0, 0, 0, 0⟩ (by simpa using hcap)
      simpa using h
  · intro cand h3 hb
    exact (processCandidateMain_rejBorder_iff ops previewFn o
      seg.debug.processedWidth seg.debug.processedHeight
      seg.debug.scaleToSource cand).mpr ⟨h3, hb⟩

/-- A square candidate at the origin, violating the border margin. -/
def candAtOrigin : PieceCandidate :=
  ⟨1, 100, ⟨0, 0, 10, 10⟩, [⟨0, 0⟩, ⟨10, 0⟩, ⟨10, 10⟩, ⟨0, 10⟩]⟩

/-- Witness for C6 (amended): on the concrete near-border segmentation,
in each of the two extractors the kept piece derives from a
margin-respecting rectangle and the border counter matches the count of
border-violating candidates, and a concrete origin-touching candidate is
rejected with the border outcome by both loop bodies. -/
theorem extractor_border_rejection_witness :
    (∃ r : IntRect,
        (extractDefaults.borderMarginPx ≤ (r.x : ℚ)
          ∧ extractDefaults.borderMarginPx ≤ (r.y : ℚ)
          ∧ (r.x : ℚ) + (r.width : ℚ)
              ≤ (segNearBorder.debug.processedWidth : ℚ)
                - extractDefaults.borderMarginPx
          ∧ (r.y : ℚ) + (r.height : ℚ)
              ≤ (segNearBorder.debug.processedHeight : ℚ)
                - extractDefaults.borderMarginPx)
        ∧ pieceNB.bboxProcessed = padRect extractDefaults
            segNearBorder.debug.processedWidth
            segNearBorder.debug.processedHeight r)
      ∧ (filterAndExtractPiecesCore sampleOps extractDefaults
            segNearBorder).filteredBorder
          = segNearBorder.pieces.countP (fun c =>
              decide (¬ c.contour.length < 3
                ∧ borderBad extractDefaults
                  segNearBorder.debug.processedWidth
                  segNearBorder.debug.processedHeight
                  (sampleOps.boundingRect
                    (candUseCnt sampleOps
                      segNearBorder.debug.scaleToSource c))))
      ∧ processCandidateCore sampleOps extractDefaults
          segNearBorder.debug.processedWidth
          segNearBorder.debug.processedHeight
          segNearBorder.debug.scaleToSource 7 candAtOrigin = .rejBorder
      ∧ (∃ r : IntRect,
          (extractDefaults.borderMarginPx ≤ (r.x : ℚ)
            ∧ extractDefaults.borderMarginPx ≤ (r.y : ℚ)
            ∧ (r.x : ℚ) + (r.width : ℚ)
                ≤ (segNearBorder.debug.processedWidth : ℚ)
                  - extractDefaults.borderMarginPx
            ∧ (r.y : ℚ) + (r.height : ℚ)
                ≤ (segNearBorder.debug.processedHeight : ℚ)
                  - extractDefaults.borderMarginPx)
          ∧ pieceNBMain.bboxProcessed = padRectMain extractDefaults
              segNearBorder.debug.processedWidth
              segNearBorder.debug.processedHeight r)
      ∧ (ExtractResult.mk [pieceNBMain] 1 0 0 0).filteredBorder
          = segNearBorder.pieces.countP (fun c =>
              decide (¬ c.contour.length < 3
                ∧ borderBad extractDefaults
                  segNearBorder.debug.processedWidth
                  segNearBorder.debug.processedHeight
                  (sampleOps.boundingRect
                    (candUseCnt sampleOps
                      segNearBorder.debug.scaleToSource c))))
      ∧ processCandidateMain sampleOps (fun _ => "") extractDefaults
          segNearBorder.debug.processedWidth
          segNearBorder.debug.processedHeight
          segNearBorder.debug.scaleToSource candAtOrigin = .rejBorder := by
  obtain ⟨h1, h2, h3, h4, h5⟩ :=
    extractor_border_rejection sampleOps (fun _ => "") extractDefaults
      segNearBorder
  have hok : filterAndExtractPieces sampleOps (fun _ => "") extractDefaults
      segNearBorder true = .ok (ExtractResult.mk [pieceNBMain] 1 0 0 0) := by
    show Except.ok (mainExtractLoop sampleOps (fun _ => "") extractDefaults
      100 100 1 [candNearBorder] ⟨[], 0, 0, 0, 0⟩) = _
    rw [segNearBorder_main_result]
  obtain ⟨h4a, h4b⟩ := h4 (ExtractResult.mk [pieceNBMain] 1 0 0 0) hok
  have hbadAO : borderBad extractDefaults segNearBorder.debug.processedWidth
      segNearBorder.debug.processedHeight
      (sampleOps.boundingRect (candUseCnt sampleOps
        segNearBorder.debug.scaleToSource candAtOrigin)) := by
    have huse : candUseCnt sampleOps segNearBorder.debug.scaleToSource
        candAtOrigin = [⟨0, 0⟩, ⟨10, 0⟩, ⟨10, 10⟩, ⟨0, 10⟩] := by
      unfold candUseCnt
      norm_num [sampleOps, toMatOfPoint, candAtOrigin, segNearBorder]
    rw [huse]
    have hrect : sampleOps.boundingRect [⟨0, 0⟩, ⟨10, 0⟩, ⟨10, 10⟩, ⟨0, 10⟩]
        = ⟨0, 0, 11, 11⟩ := by
      norm_num [sampleOps, boundingRectImpl]
    rw [hrect]
    norm_num [borderBad, extractDefaults]
  refine ⟨?_, h2 (by norm_num [segNearBorder, extractDefaults]),
    h3 candAtOrigin 7 (by norm_num [candAtOrigin]) hbadAO, ?_,
    h4b (by norm_num [segNearBorder, extractDefaults]),
    h5 candAtOrigin (by norm_num [candAtOrigin]) hbadAO⟩
  · have hmem : pieceNB ∈ (filterAndExtractPiecesCore sampleOps
        extractDefaults segNearBorder).pieces := by
      rw [segNearBorder_core_result]
      exact List.mem_singleton.mpr rfl
    exact h1 pieceNB hmem
  · exact h4a pieceNBMain (List.mem_singleton.mpr rfl)

/-- A Hough line segment: endpoint coordinates as returned in the lines
mat, together with its length and its angle normalized to [0, 180); the
latter two stand for the `Math.hypot` and `atan2`-degree values the
scans compute from the endpoints (transcendental, so taken as inputs). -/
structure LineSegM where
  x1 : ℤ
  y1 : ℤ
  x2 : ℤ
  y2 : ℤ
  len : ℚ
  ang : ℚ
deriving DecidableEq, Repr

/-- Evidence accumulated by the v1 classifier line scan: flags and best
lengths for accepted near-horizontal and near-vertical border segments. -/
structure MvpScanState where
  hasHorizontal : Bool
  hasVertical : Bool
  bestHLen : ℚ
  bestVLen : ℚ
deriving DecidableEq, Repr

/-- One iteration of the v1 `classifyEdgeCornerMvp` line loop
(`classifyPieces.ts`): skip short segments, test the angle against the
image axes (near 0/180 for horizontal, near 90 for vertical), and accept
the segment only when it additionally lies near the top/bottom
(respectively left/right) border of the ROI. -/
def mvpScanStep (minLineLength angleTol borderTol : ℚ) (w h : ℤ)
    (st : MvpScanState) (s : LineSegM) : MvpScanState :=
  if s.len < minLineLength then st
  else
    let minX := min s.x1 s.x2
    let maxX := max s.x1 s.x2
    let minY := min s.y1 s.y2
    let maxY := max s.y1 s.y2
    if |s.ang - 0| ≤ angleTol ∨ |s.ang - 180| ≤ angleTol then
      if (minY : ℚ) ≤ borderTol ∨ (h : ℚ) - 1 - borderTol ≤ (maxY : ℚ) then
        { st with hasHorizontal := true, bestHLen := max st.bestHLen s.len }
      else st
    else if |s.ang - 90| ≤ angleTol then
      if (minX : ℚ) ≤ borderTol ∨ (w : ℚ) - 1 - borderTol ≤ (maxX : ℚ) then
        { st with hasVertical := true, bestVLen := max st.bestVLen s.len }
      else st
    else st

/-- The v1 classifier line scan over all detected segments. -/
def mvpScan (minLineLength angleTol borderTol : ℚ) (w h : ℤ)
    (segs : List LineSegM) : MvpScanState :=
  segs.foldl (mvpScanStep minLineLength angleTol borderTol w h)
    ⟨false, false, 0, 0⟩

/-- One iteration of the first pass of the worker classifier
(`classifyEdgeCornerMvpCore`): track the longest qualifying segment and
its angle. -/
def corePass1Step (minLineLen : ℚ) (st : ℚ × Option ℚ) (s : LineSegM) :
    ℚ × Option ℚ :=
  if s.len < minLineLen then st
  else if st.1 < s.len then (s.len, some s.ang) else st

/-- First pass of the worker classifier: the longest segment and angle. -/
def corePass1 (minLineLen : ℚ) (segs : List LineSegM) : ℚ × Option ℚ :=
  segs.foldl (corePass1Step minLineLen) (0, none)

/-- The near-perpendicular test of the worker classifier second pass:
fold the absolute angle difference into [0, 90] and compare its distance
from 90 with the tolerance. -/
def angDiffPerp (angleTol a1 ang : ℚ) : Prop :=
  |(if 90 < |ang - a1| then 180 - |ang - a1| else |ang - a1|) - 90| ≤ angleTol

instance (angleTol a1 ang : ℚ) : Decidable (angDiffPerp angleTol a1 ang) := by
  unfold angDiffPerp
  infer_instance

/-- One iteration of the second pass of the worker classifier: the
longest qualifying segment near-perpendicular to the primary angle. -/
def corePass2Step (minLineLen angleTol a1 : ℚ) (best2 : ℚ) (s : LineSegM) :
    ℚ :=
  if s.len < minLineLen then best2
  else if angDiffPerp angleTol a1 s.ang ∧ best2 < s.len then s.len else best2

/-- Second pass of the worker classifier. -/
def corePass2 (minLineLen angleTol a1 : ℚ) (segs : List LineSegM) : ℚ :=
  segs.foldl (corePass2Step minLineLen angleTol a1) 0

/-- The straight-side evidence of the worker classifier per piece. -/
structure CoreEvidence where
  bestLen1 : ℚ
  bestAng1 : Option ℚ
  bestLen2 : ℚ
deriving DecidableEq, Repr

/-- Embedding of the two-pass segment selection of
`classifyEdgeCornerMvpCore` (`vision-worker.js`): pick the strongest
direction, then — only when a primary was found — the strongest
near-perpendicular direction. -/
def coreEvidence (minLineLen angleTol : ℚ) (segs : List LineSegM) :
    CoreEvidence :=
  let p1 := corePass1 minLineLen segs
  match p1.2 with
  | none => ⟨p1.1, none, 0⟩
  | some a => ⟨p1.1, some a, corePass2 minLineLen angleTol a segs⟩

/-- Modelled from the spec: the straight-side selection described in
§4.4 steps 5–6 — the primary is the single longest detected segment
meeting the minimum length, the secondary is the longest segment
near-perpendicular to the primary, and the classification is corner when
both meet the minimum length, edge when only the primary does, and
non-edge when no segment qualifies. -/
def specSelectClass (minLineLength angleTol : ℚ) (segs : List LineSegM) :
    PieceClass :=
  let p1 := corePass1 minLineLength segs
  match p1.2 with
  | none => .nonEdge
  | some a =>
    if minLineLength ≤ corePass2 minLineLength angleTol a segs then .corner
    else .edge

/-- A single diagonal boundary segment at 45 degrees, length 70 (for
example from (0,0) to (50,50); length and angle abstract the hypot and
atan2 values). -/
def seg45 : LineSegM := ⟨0, 0, 50, 50, 70, 45⟩

/-- Counterexample for C5: on a 100×100 ROI with the default v1
thresholds (minimum line length 35, angle tolerance 20°, border
tolerance 6), the v1 classifier scan finds neither a horizontal nor a
vertical straight side for a single long 45° boundary segment, so the
decision tree yields `nonEdge`, whereas the selection described by the
spec (longest primary relative to the piece's own geometry) yields a
primary and classifies `edge`: the v1 classifier tests segments against
the image axes, not relative to the piece's own geometry. -/
theorem mvp_axis_test_counterexample :
    mvpScan 35 20 6 100 100 [seg45] = ⟨false, false, 0, 0⟩
      ∧ (classifyDecisionMvp (35/100) (10/100) false false 0 0
          100 100).classification = .nonEdge
      ∧ specSelectClass 35 20 [seg45] = .edge
      ∧ (classifyDecisionMvp (35/100) (10/100) false false 0 0
          100 100).classification ≠ specSelectClass 35 20 [seg45] := by
  have h1 : mvpScan 35 20 6 100 100 [seg45] = ⟨false, false, 0, 0⟩ := by
    show mvpScanStep 35 20 6 100 100 ⟨false, false, 0, 0⟩ seg45 = _
    unfold mvpScanStep
    rw [if_neg (by norm_num [seg45])]
    rw [if_neg (by norm_num [seg45])]
    rw [if_neg (by norm_num [seg45])]
  have h2 : (classifyDecisionMvp (35/100) (10/100) false false 0 0
      100 100).classification = .nonEdge := by
    unfold classifyDecisionMvp
    norm_num
  have h3 : specSelectClass 35 20 [seg45] = .edge := by
    have hp1 : corePass1 35 [seg45] = (70, some 45) := by
      show corePass1Step 35 (0, none) seg45 = _
      unfold corePass1Step
      rw [if_neg (by norm_num [seg45]), if_pos (by norm_num [seg45])]
      rfl
    unfold specSelectClass
    rw [hp1]
    have hp2 : corePass2 35 20 45 [seg45] = 0 := by
      show corePass2Step 35 20 45 0 seg45 = _
      unfold corePass2Step
      rw [if_neg (by norm_num [seg45])]
      rw [if_neg (by norm_num [angDiffPerp, seg45])]
    show (if (35:ℚ) ≤ corePass2 35 20 45 [seg45] then PieceClass.corner
      else PieceClass.edge) = PieceClass.edge
    rw [hp2]
    norm_num
  refine ⟨h1, h2, h3, ?_⟩
  rw [h2, h3]
  simp

theorem corePass1_fold (minLineLen : ℚ) (segs : List LineSegM)
    (acc : ℚ × Option ℚ) :
    acc.1 ≤ (segs.foldl (corePass1Step minLineLen) acc).1
      ∧ (∀ s ∈ segs, minLineLen ≤ s.len
          → s.len ≤ (segs.foldl (corePass1Step minLineLen) acc).1)
      ∧ ((segs.foldl (corePass1Step minLineLen) acc) = acc
        ∨ ∃ s ∈ segs, minLineLen ≤ s.len
            ∧ (segs.foldl (corePass1Step minLineLen) acc).1 = s.len
            ∧ (segs.foldl (corePass1Step minLineLen) acc).2 = some s.ang) := by
  induction segs generalizing acc with
  | nil => exact ⟨le_rfl, by simp, .inl rfl⟩
  | cons s rest ih =>
    simp only [List.foldl_cons]
    by_cases hlen : s.len < minLineLen
    · have hstep : corePass1Step minLineLen acc s = acc := by
        unfold corePass1Step
        rw [if_pos hlen]
      rw [hstep]
      obtain ⟨ih1, ih2, ih3⟩ := ih acc
      refine ⟨ih1, ?_, ?_⟩
      · intro t ht hmin
        rcases List.mem_cons.mp ht with rfl | ht
        · exact absurd hmin (not_le.mpr hlen)
        · exact ih2 t ht hmin
      · rcases ih3 with h | ⟨t, ht, h⟩
        · exact .inl h
        · exact .inr ⟨t, List.mem_cons_of_mem s ht, h⟩
    · by_cases hgt : acc.1 < s.len
      · have hstep : corePass1Step minLineLen acc s = (s.len, some s.ang) := by
          unfold corePass1Step
          rw [if_neg hlen, if_pos hgt]
        rw [hstep]
        obtain ⟨ih1, ih2, ih3⟩ := ih (s.len, some s.ang)
        refine ⟨le_trans hgt.le ih1, ?_, ?_⟩
        · intro t ht hmin
          rcases List.mem_cons.mp ht with rfl | ht
          · exact ih1
          · exact ih2 t ht hmin
        · rcases ih3 with h | ⟨t, ht, h⟩
          · exact .inr ⟨s, List.mem_cons_self s rest, not_lt.mp hlen,
              by rw [h], by rw [h]⟩
          · exact .inr ⟨t, List.mem_cons_of_mem s ht, h⟩
      · have hstep : corePass1Step minLineLen acc s = acc := by
          unfold corePass1Step
          rw [if_neg hlen, if_neg hgt]
        rw [hstep]
        obtain ⟨ih1, ih2, ih3⟩ := ih acc
        refine ⟨ih1, ?_, ?_⟩
        · intro t ht hmin
          rcases List.mem_cons.mp ht with rfl | ht
          · exact le_trans (not_lt.mp hgt) ih1
          · exact ih2 t ht hmin
        · rcases ih3 with h | ⟨t, ht, h⟩
          · exact .inl h
          · exact .inr ⟨t, List.mem_cons_of_mem s ht, h⟩

theorem corePass2_fold (minLineLen angleTol a1 : ℚ) (segs : List LineSegM)
    (acc : ℚ) :
    acc ≤ segs.foldl (corePass2Step minLineLen angleTol a1) acc
      ∧ (∀ s ∈ segs, minLineLen ≤ s.len → angDiffPerp angleTol a1 s.ang
          → s.len ≤ segs.foldl (corePass2Step minLineLen angleTol a1) acc)
      ∧ (segs.foldl (corePass2Step minLineLen angleTol a1) acc = acc
        ∨ ∃ s ∈ segs, minLineLen ≤ s.len ∧ angDiffPerp angleTol a1 s.ang
            ∧ segs.foldl (corePass2Step minLineLen angleTol a1) acc = s.len) := by
  induction segs generalizing acc with
  | nil => exact ⟨le_rfl, by simp, .inl rfl⟩
  | cons s rest ih =>
    simp only [List.foldl_cons]
    by_cases hlen : s.len < minLineLen
    · have hstep : corePass2Step minLineLen angleTol a1 acc s = acc := by
        unfold corePass2Step
        rw [if_pos hlen]
      rw [hstep]
      obtain ⟨ih1, ih2, ih3⟩ := ih acc
      refine ⟨ih1, ?_, ?_⟩
      · intro t ht hmin hperp
        rcases List.mem_cons.mp ht with rfl | ht
        · exact absurd hmin (not_le.mpr hlen)
        · exact ih2 t ht hmin hperp
      · rcases ih3 with h | ⟨t, ht, h⟩
        · exact .inl h
        · exact .inr ⟨t, List.mem_cons_of_mem s ht, h⟩
    · by_cases hcond : angDiffPerp angleTol a1 s.ang ∧ acc < s.len
      · have hstep : corePass2Step minLineLen angleTol a1 acc s = s.len := by
          unfold corePass2Step
          rw [if_neg hlen, if_pos hcond]
        rw [hstep]
        obtain ⟨ih1, ih2, ih3⟩ := ih s.len
        refine ⟨le_trans hcond.2.le ih1, ?_, ?_⟩
        · intro t ht hmin hperp
          rcases List.mem_cons.mp ht with rfl | ht
          · exact ih1
          · exact ih2 t ht hmin hperp
        · rcases ih3 with h | ⟨t, ht, h⟩
          · exact .inr ⟨s, List.mem_cons_self s rest,
              not_lt.mp hlen, hcond.1, h⟩
          · exact .inr ⟨t, List.mem_cons_of_mem s ht, h⟩
      · have hstep : corePass2Step minLineLen angleTol a1 acc s = acc := by
          unfold corePass2Step
          rw [if_neg hlen, if_neg hcond]
        rw [hstep]
        obtain ⟨ih1, ih2, ih3⟩ := ih acc
        refine ⟨ih1, ?_, ?_⟩
        · intro t ht hmin hperp
          rcases List.mem_cons.mp ht with rfl | ht
          · rcases not_and_or.mp hcond with h | h
            · exact absurd hperp h
            · exact le_trans (not_lt.mp h) ih1
          · exact ih2 t ht hmin hperp
        · rcases ih3 with h | ⟨t, ht, h⟩
          · exact .inl h
          · exact .inr ⟨t, List.mem_cons_of_mem s ht, h⟩

/-- C5 (amended): the worker classifier (`classifyEdgeCornerMvpCore`)
selects straight sides relative to the piece's own geometry: among
qualifying segments (length at least the minimum), the primary is the
single longest segment — every qualifying segment is no longer than
`bestLen1`, and `bestAng1` is the angle of a qualifying segment
attaining it (`bestAng1` is `none` exactly when no segment qualifies) —
and the secondary is the longest qualifying segment whose angle is
within the angular tolerance of being perpendicular to the primary
angle.  The main-thread v1 classifier does not implement this selection;
it tests segments against the image axes (see the counterexample). -/
theorem coreEvidence_selects_primary_secondary (minLineLen angleTol : ℚ)
    (segs : List LineSegM) (hmin : 0 < minLineLen) :
    (∀ s ∈ segs, minLineLen ≤ s.len
        → s.len ≤ (coreEvidence minLineLen angleTol segs).bestLen1)
      ∧ ((coreEvidence minLineLen angleTol segs).bestAng1 = none
          → ∀ s ∈ segs, s.len < minLineLen)
      ∧ (∀ a, (coreEvidence minLineLen angleTol segs).bestAng1 = some a
          → ∃ s ∈ segs, minLineLen ≤ s.len
              ∧ s.len = (coreEvidence minLineLen angleTol segs).bestLen1
              ∧ s.ang = a)
      ∧ (∀ a, (coreEvidence minLineLen angleTol segs).bestAng1 = some a
          → (∀ s ∈ segs, minLineLen ≤ s.len → angDiffPerp angleTol a s.ang
              → s.len ≤ (coreEvidence minLineLen angleTol segs).bestLen2)
            ∧ ((coreEvidence minLineLen angleTol segs).bestLen2 = 0
              ∨ ∃ s ∈ segs, minLineLen ≤ s.len
                  ∧ angDiffPerp angleTol a s.ang
                  ∧ s.len = (coreEvidence minLineLen angleTol segs).bestLen2)) := by
  obtain ⟨hf1, hf2, hf3⟩ := corePass1_fold minLineLen segs (0, none)
  rw [show List.foldl (corePass1Step minLineLen) (0, none) segs
    = corePass1 minLineLen segs from rfl] at hf1 hf2 hf3
  have hev : coreEvidence minLineLen angleTol segs
      = (match (corePass1 minLineLen segs).2 with
        | none => ⟨(corePass1 minLineLen segs).1, none, 0⟩
        | some a => ⟨(corePass1 minLineLen segs).1, some a,
            corePass2 minLineLen angleTol a segs⟩) := rfl
  rcases hp2 : (corePass1 minLineLen segs).2 with _ | a
  · have hev2 : coreEvidence minLineLen angleTol segs
        = ⟨(corePass1 minLineLen segs).1, none, 0⟩ := by
      rw [hev, hp2]
    have hzero : (corePass1 minLineLen segs).1 = 0 := by
      rcases hf3 with h | ⟨s, _, _, _, hsang⟩
      · exact congrArg Prod.fst h
      · rw [hp2] at hsang
        cases hsang
    refine ⟨?_, ?_, ?_, ?_⟩
    · intro s hs hmin2
      rw [hev2]
      exact hf2 s hs hmin2
    · intro _ s hs
      by_contra hlt
      have := hf2 s hs (not_lt.mp hlt)
      rw [hzero] at this
      exact absurd (lt_of_lt_of_le hmin (le_trans (not_lt.mp hlt) this))
        (lt_irrefl 0)
    · intro a ha
      rw [hev2] at ha
      cases ha
    · intro a ha
      rw [hev2] at ha
      cases ha
  · have hev2 : coreEvidence minLineLen angleTol segs
        = ⟨(corePass1 minLineLen segs).1, some a,
            corePass2 minLineLen angleTol a segs⟩ := by
      rw [hev, hp2]
    obtain ⟨hg1, hg2, hg3⟩ := corePass2_fold minLineLen angleTol a segs 0
    rw [show List.foldl (corePass2Step minLineLen angleTol a) 0 segs
      = corePass2 minLineLen angleTol a segs from rfl] at hg1 hg2 hg3
    refine ⟨?_, ?_, ?_, ?_⟩
    · intro s hs hmin2
      rw [hev2]
      exact hf2 s hs hmin2
    · intro hnone
      rw [hev2] at hnone
      cases hnone
    · intro b hb
      rw [hev2] at hb
      obtain rfl : a = b := by cases hb; rfl
      rcases hf3 with h | ⟨s, hs, hsmin, hslen, hsang⟩
      · rw [h] at hp2
        cases hp2
      · rw [hp2] at hsang
        refine ⟨s, hs, hsmin, by rw [hev2, hslen], by cases hsang; rfl⟩
    · intro b hb
      rw [hev2] at hb
      obtain rfl : a = b := by cases hb; rfl
      constructor
      · intro s hs hmin2 hperp
        rw [hev2]
        exact hg2 s hs hmin2 hperp
      · rcases hg3 with h | ⟨s, hs, hsmin, hsperp, hslen⟩
        · exact .inl (by rw [hev2]; exact h)
        · exact .inr ⟨s, hs, hsmin, hsperp, by rw [hev2]; exact hslen.symm⟩

/-- Witness for C5 (amended): with two concrete qualifying segments (of
lengths 70 and 40), the primary bound from the selection theorem puts
both lengths below `bestLen1`. -/
theorem coreEvidence_selects_witness :
    (70:ℚ) ≤ (coreEvidence 35 25
        [(⟨0, 0, 60, 35, 70, 30⟩ : LineSegM), ⟨10, 0, 0, 22, 40, 115⟩]).bestLen1
      ∧ (40:ℚ) ≤ (coreEvidence 35 25
        [(⟨0, 0, 60, 35, 70, 30⟩ : LineSegM), ⟨10, 0, 0, 22, 40, 115⟩]).bestLen1 := by
  obtain ⟨h1, _, _, _⟩ := coreEvidence_selects_primary_secondary 35 25
    [(⟨0, 0, 60, 35, 70, 30⟩ : LineSegM), ⟨10, 0, 0, 22, 40, 115⟩]
    (by norm_num)
  exact ⟨h1 ⟨0, 0, 60, 35, 70, 30⟩ (List.mem_cons_self _ _) (by norm_num),
    h1 ⟨10, 0, 0, 22, 40, 115⟩
      (List.mem_cons_of_mem _ (List.mem_cons_self _ _)) (by norm_num)⟩

end PuzzleVision
